import Mathlib

/-!
Verification development for the i18n auto-injection engine (src/index.js).

The engine extracts CJK text from Vue single-file components and script
files, replaces each occurrence with a `$t('namespace.text')` translation
call, and accumulates the extracted strings into per-namespace dictionaries.

Shallow embedding conventions:
* JS strings are Lean `String`s; scanning passes work on `List Char`.
* The mutable `localeMap` object is an association list that records JS
  object insertion order; `addLocale` mirrors `addLocale` in src/index.js.
* The override set `commonWords` (loaded from a data file that is not part
  of the sources) is passed explicitly as a `List String` parameter `cw`.
* Regex-driven passes are modelled as fuel-indexed scanners that reproduce
  the leftmost-match / continue-after-match semantics of
  `String.prototype.replace` with a global regex.
-/

namespace I18n

/-- Chinese-character test modelling the regex `/[一-龥]+/` (`zhReg`). -/
def isCJK (c : Char) : Bool := 0x4e00 ≤ c.toNat && c.toNat ≤ 0x9fa5

/-- Test modelling `zhReg.test s`: some character of `s` is in the CJK range. -/
def containsCJK (s : List Char) : Bool := s.any isCJK

/-- Whitespace class modelling the JS `\s` regex class and `String.trim`
(restricted to the ASCII whitespace characters that occur in practice). -/
def isWsChar (c : Char) : Bool :=
  c = ' ' || c = '\t' || c = '\n' || c = '\r' || c = '\x0b' || c = '\x0c'

/-- Model of `String.prototype.trim` on character lists. -/
def trimChars (s : List Char) : List Char :=
  ((s.dropWhile isWsChar).reverse.dropWhile isWsChar).reverse

/-- Model of `String.prototype.trim`. -/
def jsTrim (s : String) : String := String.mk (trimChars s.data)

/-- Substring test modelling `String.prototype.includes`. -/
def hasSub (pat : List Char) : List Char → Bool
  | [] => pat.isEmpty
  | c :: cs => pat.isPrefixOf (c :: cs) || hasSub pat cs

/-! ### The locale registry (`localeMap` / `addLocale`, src/index.js lines 31-47) -/

/-- The accumulating registry `localeMap`: an association list from namespace
to a table of (key, value) pairs, both in JS object insertion order. -/
abbrev LocaleMap := List (String × List (String × String))

/-- Namespace resolution `commonWords.has(text) ? "common" : moduleName`,
shared by `addLocale`, `getTCallExpression` and the inline key builders. -/
def resolveModule (cw : List String) (moduleName text : String) : String :=
  if cw.contains text then ("common") else moduleName

/-- Insertion into the registry under an already-resolved namespace: create
the namespace table if missing (appended, as JS object key insertion), and
record `text ↦ text` only when the key is not already present. -/
def regInsert : LocaleMap → String → String → LocaleMap
  | [], tgt, t => [(tgt, [(t, t)])]
  | (n, tbl) :: rest, tgt, t =>
    if n = tgt then
      if tbl.any (fun p => p.1 == t) then (n, tbl) :: rest
      else (n, tbl ++ [(t, t)]) :: rest
    else (n, tbl) :: regInsert rest tgt t

/-- Model of `addLocale(moduleName, text)` (src/index.js lines 32-40). -/
def addLocale (cw : List String) (reg : LocaleMap) (moduleName text : String) :
    LocaleMap :=
  regInsert reg (resolveModule cw moduleName text) text

/-- Registry membership viewed as a map: is `text` recorded under namespace
`ns`? -/
def regLookup : LocaleMap → String → String → Bool
  | [], _, _ => false
  | (n, tbl) :: rest, ns, t =>
    if n = ns then tbl.any (fun p => p.1 == t) else regLookup rest ns t

/-- The table recorded for one namespace (empty when the namespace is
absent). -/
def moduleTable : LocaleMap → String → List (String × String)
  | [], _ => []
  | (n, tbl) :: rest, ns => if n = ns then tbl else moduleTable rest ns

/-- Replay of a list of `addLocale(moduleName, text)` requests against a
registry, in order. -/
def applyInserts (cw : List String) (reg : LocaleMap)
    (l : List (String × String)) : LocaleMap :=
  l.foldl (fun r p => addLocale cw r p.1 p.2) reg

/-- The registry obtained from a whole run's insertion requests. -/
def builtReg (cw : List String) (l : List (String × String)) : LocaleMap :=
  applyInserts cw [] l

/-- Key-sorting step of `writeLocaleFiles`: `Object.keys(map).sort()` followed
by rebuilding the object in sorted key order. -/
def sortTable (tbl : List (String × String)) : List (String × String) :=
  List.insertionSort (fun a b => a.1 ≤ b.1) tbl

/-- Model of `writeLocaleFiles` (src/index.js lines 49-68): for each
namespace, one document `(fileName, (topLevelKey, sortedTable))` where the
file name and the single top-level key are both the namespace name. -/
def writeLocaleFiles (reg : LocaleMap) :
    List (String × (String × List (String × String))) :=
  reg.map (fun e => (e.1, (e.1, sortTable e.2)))

/-! ### The JS AST fragment used by the script rewriter -/

/-- Expression fragment of the JS AST handled by the script rewriter. -/
inductive JsExpr where
  | str (value : String)
  | ident (name : String)
  | call (callee : JsExpr) (args : List JsExpr)
  | tpl (quasis : List String) (exprs : List JsExpr)

/-- Model of `getTCallExpression(text, moduleName)` (src/index.js lines
42-47): the call `$t('<resolved namespace>.<text>')`. -/
def getTCallExpression (cw : List String) (text moduleName : String) : JsExpr :=
  JsExpr.call (JsExpr.ident ("$t"))
    [JsExpr.str (resolveModule cw moduleName text ++ "." ++ text)]

/-! ### Registry lemmas -/

theorem regInsert_mem_self (reg : LocaleMap) (tgt t : String) :
    regLookup (regInsert reg tgt t) tgt t = true := by
  induction reg with
  | nil => simp [regInsert, regLookup]
  | cons e rest ih =>
    obtain ⟨n, tbl⟩ := e
    by_cases hn : n = tgt
    · subst hn
      by_cases hmem : tbl.any (fun p => p.1 == t) = true
      · simp [regInsert, regLookup, hmem]
      · simp at hmem
        simp [regInsert, regLookup, hmem]
    · simp [regInsert, regLookup, hn, ih]

theorem regLookup_regInsert (reg : LocaleMap) (tgt t ns u : String) :
    regLookup (regInsert reg tgt t) ns u =
      (regLookup reg ns u || ((tgt == ns) && (t == u))) := by
  induction reg with
  | nil =>
    by_cases h : tgt = ns
    · subst h; simp [regInsert, regLookup]
    · have hb : (tgt == ns) = false := by simp [h]
      simp [regInsert, regLookup, h, hb]
  | cons e rest ih =>
    obtain ⟨n, tbl⟩ := e
    by_cases hn : n = tgt
    · subst hn
      by_cases hmem : tbl.any (fun p => p.1 == t) = true
      · have h1 : regInsert ((n, tbl) :: rest) n t = (n, tbl) :: rest := by
          simp [regInsert, hmem]
        rw [h1]
        by_cases hns : n = ns
        · subst hns
          simp only [regLookup, if_pos rfl, beq_self_eq_true, Bool.true_and]
          by_cases htu : t = u
          · subst htu
            simp [hmem]
          · have hf : (t == u) = false := by simp [htu]
            simp [hf]
        · have hb : (n == ns) = false := by simp [hns]
          simp [regLookup, hns, hb]
      · have hmf : (tbl.any fun p => p.1 == t) = false :=
          Bool.eq_false_iff.mpr hmem
        have h1 : regInsert ((n, tbl) :: rest) n t =
            (n, tbl ++ [(t, t)]) :: rest := by
          simp [regInsert, hmf]
        rw [h1]
        by_cases hns : n = ns
        · subst hns
          simp [regLookup, List.any_append]
        · have hb : (n == ns) = false := by simp [hns]
          simp [regLookup, hns, hb]
    · have h1 : regInsert ((n, tbl) :: rest) tgt t =
          (n, tbl) :: regInsert rest tgt t := by
        simp [regInsert, hn]
      rw [h1]
      by_cases hns : n = ns
      · subst hns
        have hb : (tgt == n) = false := by
          rw [beq_eq_false_iff_ne]; exact fun h => hn h.symm
        simp [regLookup, hb]
      · simp [regLookup, hns, ih]

theorem regLookup_addLocale (cw : List String) (reg : LocaleMap)
    (m t ns u : String) :
    regLookup (addLocale cw reg m t) ns u =
      (regLookup reg ns u || ((resolveModule cw m t == ns) && (t == u))) :=
  regLookup_regInsert reg (resolveModule cw m t) t ns u

theorem regLookup_applyInserts (cw : List String) (reg : LocaleMap)
    (l : List (String × String)) (ns u : String) :
    regLookup (applyInserts cw reg l) ns u =
      (regLookup reg ns u ||
        l.any (fun p => (resolveModule cw p.1 p.2 == ns) && (p.2 == u))) := by
  induction l generalizing reg with
  | nil => simp [applyInserts]
  | cons p l ih =>
    have step : applyInserts cw reg (p :: l) =
        applyInserts cw (addLocale cw reg p.1 p.2) l := rfl
    rw [step, ih, regLookup_addLocale]
    simp [Bool.or_assoc]

theorem regInsert_idem (reg : LocaleMap) (tgt t : String) :
    regInsert (regInsert reg tgt t) tgt t = regInsert reg tgt t := by
  induction reg with
  | nil => simp [regInsert]
  | cons e rest ih =>
    obtain ⟨n, tbl⟩ := e
    by_cases hn : n = tgt
    · subst hn
      by_cases hmem : tbl.any (fun p => p.1 == t) = true
      · simp [regInsert, hmem]
      · simp at hmem
        simp [regInsert, hmem, List.any_append]
    · simp [regInsert, hn, ih]

theorem applyInserts_perm_lookup (cw : List String)
    (l₁ l₂ : List (String × String)) (reg : LocaleMap) (ns t : String)
    (hperm : l₁.Perm l₂) :
    regLookup (applyInserts cw reg l₁) ns t =
      regLookup (applyInserts cw reg l₂) ns t := by
  rw [regLookup_applyInserts, regLookup_applyInserts]
  have hany : l₁.any (fun p => (resolveModule cw p.1 p.2 == ns) && (p.2 == t)) =
      l₂.any (fun p => (resolveModule cw p.1 p.2 == ns) && (p.2 == t)) := by
    rw [Bool.eq_iff_iff, List.any_eq_true, List.any_eq_true]
    constructor
    · rintro ⟨x, hx, hpx⟩; exact ⟨x, hperm.mem_iff.mp hx, hpx⟩
    · rintro ⟨x, hx, hpx⟩; exact ⟨x, hperm.mem_iff.mpr hx, hpx⟩
  rw [hany]

/-- **C4.** Registry insertion is idempotent (re-inserting an already-present
pair is a no-op, returning the registry unchanged), and, viewed as a map via
`regLookup`, the registry built from a multiset of insertion requests is
independent of the order in which the requests are performed. -/
theorem addLocale_idem_and_order_independent :
    (∀ (cw : List String) (reg : LocaleMap) (m t : String),
      addLocale cw (addLocale cw reg m t) m t = addLocale cw reg m t) ∧
    (∀ (cw : List String) (l₁ l₂ : List (String × String)) (reg : LocaleMap)
      (ns t : String), l₁.Perm l₂ →
      regLookup (applyInserts cw reg l₁) ns t =
        regLookup (applyInserts cw reg l₂) ns t) := by
  constructor
  · intro cw reg m t
    exact regInsert_idem reg (resolveModule cw m t) t
  · intro cw l₁ l₂ reg ns t hperm
    exact applyInserts_perm_lookup cw l₁ l₂ reg ns t hperm

/-- Closed witness for the hypotheses of `addLocale_idem_and_order_independent`. -/
theorem addLocale_idem_and_order_independent_witness :
    addLocale [] (addLocale [] [] ("test") ("你好")) ("test") ("你好") =
      addLocale [] [] ("test") ("你好") ∧
    regLookup (applyInserts [] [] [(("a"), ("你")), (("b"), ("好"))]) ("a") ("你") =
      regLookup (applyInserts [] [] [(("b"), ("好")), (("a"), ("你"))]) ("a") ("你") :=
  ⟨addLocale_idem_and_order_independent.1 [] [] ("test") ("你好"),
   addLocale_idem_and_order_independent.2 []
     [(("a"), ("你")), (("b"), ("好"))] [(("b"), ("好")), (("a"), ("你"))]
     [] ("a") ("你") (by decide)⟩

/-- **C3.** A text in the override set is always filed under the reserved
`common` namespace — by `addLocale` and by the generated translation key —
regardless of the namespace of the file being processed, and no other
namespace is touched; a text not in the override set is filed under the
file's namespace. -/
theorem override_set_namespace_precedence :
    ∀ (cw : List String) (m t : String) (reg : LocaleMap),
      (cw.contains t = true →
        regLookup (addLocale cw reg m t) ("common") t = true ∧
        getTCallExpression cw t m =
          JsExpr.call (JsExpr.ident ("$t")) [JsExpr.str (("common") ++ "." ++ t)] ∧
        (∀ ns, ns ≠ ("common") →
          regLookup (addLocale cw reg m t) ns t = regLookup reg ns t)) ∧
      (cw.contains t = false →
        regLookup (addLocale cw reg m t) m t = true ∧
        getTCallExpression cw t m =
          JsExpr.call (JsExpr.ident ("$t")) [JsExpr.str (m ++ "." ++ t)] ∧
        (∀ ns, ns ≠ m →
          regLookup (addLocale cw reg m t) ns t = regLookup reg ns t)) := by
  intro cw m t reg
  constructor
  · intro hc
    have hres : resolveModule cw m t = ("common") := by
      unfold resolveModule
      rw [hc]
      rfl
    refine ⟨?_, ?_, ?_⟩
    · unfold addLocale
      rw [hres]
      exact regInsert_mem_self reg ("common") t
    · unfold getTCallExpression
      rw [hres]
    · intro ns hns
      rw [regLookup_addLocale, hres]
      have hb : (("common" : String) == ns) = false := by
        rw [beq_eq_false_iff_ne]; exact fun h => hns h.symm
      simp [hb]
  · intro hc
    have hres : resolveModule cw m t = m := by
      unfold resolveModule
      rw [hc]
      rfl
    refine ⟨?_, ?_, ?_⟩
    · unfold addLocale
      rw [hres]
      exact regInsert_mem_self reg m t
    · unfold getTCallExpression
      rw [hres]
    · intro ns hns
      rw [regLookup_addLocale, hres]
      have hb : (m == ns) = false := by
        rw [beq_eq_false_iff_ne]; exact fun h => hns h.symm
      simp [hb]

/-- Closed witness for the hypotheses of `override_set_namespace_precedence`. -/
theorem override_set_namespace_precedence_witness :
    regLookup (addLocale [("好")] [] ("test") ("好")) ("common") ("好") = true ∧
    regLookup (addLocale [] [] ("test") ("好")) ("test") ("好") = true :=
  ⟨((override_set_namespace_precedence [("好")] ("test") ("好") []).1
      (by decide)).1,
   ((override_set_namespace_precedence [] ("test") ("好") []).2
      (by decide)).1⟩

/-! ### Dictionary serialization (C5) -/

/-- Structural invariant maintained by the registry: every namespace table
has duplicate-free keys and stores each key as its own value. -/
def RegOk (reg : LocaleMap) : Prop :=
  ∀ e ∈ reg, (e.2.map Prod.fst).Nodup ∧ ∀ p ∈ e.2, p.2 = p.1

theorem regInsert_ok {reg : LocaleMap} (tgt t : String) (h : RegOk reg) :
    RegOk (regInsert reg tgt t) := by
  induction reg with
  | nil =>
    intro e he
    simp only [regInsert, List.mem_singleton] at he
    subst he
    simp
  | cons e rest ih =>
    obtain ⟨n, tbl⟩ := e
    have hhead := h (n, tbl) (List.mem_cons_self _ _)
    have hrest : RegOk rest := fun e he => h e (List.mem_cons_of_mem _ he)
    by_cases hn : n = tgt
    · subst hn
      by_cases hmem : tbl.any (fun p => p.1 == t) = true
      · have h1 : regInsert ((n, tbl) :: rest) n t = (n, tbl) :: rest := by
          simp [regInsert, hmem]
        rw [h1]; exact h
      · have hmf : (tbl.any fun p => p.1 == t) = false :=
          Bool.eq_false_iff.mpr hmem
        have h1 : regInsert ((n, tbl) :: rest) n t =
            (n, tbl ++ [(t, t)]) :: rest := by
          simp [regInsert, hmf]
        rw [h1]
        intro e he
        rcases List.mem_cons.mp he with he | he
        · subst he
          constructor
          · simp only [List.map_append, List.map_cons, List.map_nil]
            rw [List.nodup_append]
            refine ⟨hhead.1, List.nodup_singleton t, ?_⟩
            intro a ha hb
            rw [List.mem_singleton] at hb
            rcases List.mem_map.mp ha with ⟨p, hp, hpa⟩
            have hany : tbl.any (fun q => q.1 == t) = true := by
              rw [List.any_eq_true]
              refine ⟨p, hp, ?_⟩
              rw [beq_iff_eq, hpa, hb]
            rw [hmf] at hany
            exact Bool.noConfusion hany
          · intro p hp
            rcases List.mem_append.mp hp with hp | hp
            · exact hhead.2 p hp
            · simp only [List.mem_singleton] at hp
              subst hp; rfl
        · exact hrest e he
    · have h1 : regInsert ((n, tbl) :: rest) tgt t =
          (n, tbl) :: regInsert rest tgt t := by
        simp [regInsert, hn]
      rw [h1]
      intro e he
      rcases List.mem_cons.mp he with he | he
      · subst he; exact hhead
      · exact ih hrest e he

theorem applyInserts_ok (cw : List String) {reg : LocaleMap}
    (l : List (String × String)) (h : RegOk reg) :
    RegOk (applyInserts cw reg l) := by
  induction l generalizing reg with
  | nil => exact h
  | cons p l ih =>
    have step : applyInserts cw reg (p :: l) =
        applyInserts cw (addLocale cw reg p.1 p.2) l := rfl
    rw [step]
    exact ih (regInsert_ok _ _ h)

theorem builtReg_ok (cw : List String) (l : List (String × String)) :
    RegOk (builtReg cw l) :=
  applyInserts_ok cw l (fun e he => absurd he (List.not_mem_nil e))

theorem moduleTable_sub (reg : LocaleMap) (ns : String) :
    moduleTable reg ns = [] ∨ (ns, moduleTable reg ns) ∈ reg := by
  induction reg with
  | nil => exact Or.inl rfl
  | cons e rest ih =>
    obtain ⟨n, tbl⟩ := e
    by_cases hn : n = ns
    · subst hn
      right
      have hmt : moduleTable ((n, tbl) :: rest) n = tbl := by
        simp [moduleTable]
      rw [hmt]
      exact List.mem_cons_self _ _
    · have hmt : moduleTable ((n, tbl) :: rest) ns = moduleTable rest ns := by
        simp [moduleTable, hn]
      rw [hmt]
      rcases ih with h | h
      · exact Or.inl h
      · exact Or.inr (List.mem_cons_of_mem _ h)

theorem moduleTable_ok {reg : LocaleMap} (h : RegOk reg) (ns : String) :
    ((moduleTable reg ns).map Prod.fst).Nodup ∧
      ∀ p ∈ moduleTable reg ns, p.2 = p.1 := by
  rcases moduleTable_sub reg ns with he | he
  · rw [he]
    constructor
    · simp
    · intro p hp
      exact absurd hp (List.not_mem_nil p)
  · exact h _ he

theorem mem_keys_moduleTable (reg : LocaleMap) (ns t : String) :
    t ∈ (moduleTable reg ns).map Prod.fst ↔ regLookup reg ns t = true := by
  induction reg with
  | nil => simp [moduleTable, regLookup]
  | cons e rest ih =>
    obtain ⟨n, tbl⟩ := e
    by_cases hn : n = ns
    · subst hn
      have hl : regLookup ((n, tbl) :: rest) n t = (tbl.any fun p => p.1 == t) := by
        simp [regLookup]
      have hm : moduleTable ((n, tbl) :: rest) n = tbl := by
        simp [moduleTable]
      rw [hm, hl, List.any_eq_true]
      constructor
      · intro h
        rcases List.mem_map.mp h with ⟨p, hp, hpt⟩
        exact ⟨p, hp, by rw [beq_iff_eq]; exact hpt⟩
      · rintro ⟨p, hp, hpt⟩
        rw [beq_iff_eq] at hpt
        exact List.mem_map.mpr ⟨p, hp, hpt⟩
    · have hl : regLookup ((n, tbl) :: rest) ns t = regLookup rest ns t := by
        simp [regLookup, hn]
      have hm : moduleTable ((n, tbl) :: rest) ns = moduleTable rest ns := by
        simp [moduleTable, hn]
      rw [hm, hl]
      exact ih

theorem pair_mem_of_key_mem {tbl : List (String × String)}
    (hok : ∀ p ∈ tbl, p.2 = p.1) {t : String}
    (h : t ∈ tbl.map Prod.fst) : (t, t) ∈ tbl := by
  rcases List.mem_map.mp h with ⟨p, hp, hpt⟩
  have h2 := hok p hp
  have : p = (t, t) := by
    obtain ⟨a, b⟩ := p
    simp only at hpt h2
    subst hpt; subst h2; rfl
  rw [← this]; exact hp

theorem sorted_lt_of_sorted_le_nodup {l : List (String × String)}
    (hle : l.Pairwise (fun a b => a.1 ≤ b.1))
    (hnd : (l.map Prod.fst).Nodup) :
    l.Pairwise (fun a b : String × String => a.1 < b.1) := by
  induction l with
  | nil => exact List.Pairwise.nil
  | cons p l ih =>
    rw [List.pairwise_cons] at hle ⊢
    simp only [List.map_cons, List.nodup_cons] at hnd
    refine ⟨?_, ih hle.2 hnd.2⟩
    intro q hq
    refine lt_of_le_of_ne (hle.1 q hq) ?_
    intro hEq
    exact hnd.1 (hEq ▸ List.mem_map.mpr ⟨q, hq, rfl⟩)

theorem sortTable_sorted (tbl : List (String × String)) :
    (sortTable tbl).Pairwise (fun a b => a.1 ≤ b.1) := by
  haveI : IsTotal (String × String) (fun a b => a.1 ≤ b.1) :=
    ⟨fun a b => le_total a.1 b.1⟩
  haveI : IsTrans (String × String) (fun a b => a.1 ≤ b.1) :=
    ⟨fun _ _ _ h1 h2 => le_trans h1 h2⟩
  exact List.sorted_insertionSort _ tbl

theorem sortTable_perm (tbl : List (String × String)) :
    (sortTable tbl).Perm tbl :=
  List.perm_insertionSort _ tbl

theorem sortTable_eq_of_perm {t₁ t₂ : List (String × String)}
    (hperm : t₁.Perm t₂) (hnd : (t₁.map Prod.fst).Nodup) :
    sortTable t₁ = sortTable t₂ := by
  haveI : IsAntisymm (String × String) (fun a b : String × String => a.1 < b.1) :=
    ⟨fun a b h1 h2 => absurd (lt_trans h1 h2) (lt_irrefl _)⟩
  have hnd₂ : (t₂.map Prod.fst).Nodup := ((hperm.map Prod.fst).nodup_iff).mp hnd
  have hp : (sortTable t₁).Perm (sortTable t₂) :=
    (sortTable_perm t₁).trans (hperm.trans (sortTable_perm t₂).symm)
  have hs₁ : List.Sorted (fun a b : String × String => a.1 < b.1) (sortTable t₁) :=
    sorted_lt_of_sorted_le_nodup (sortTable_sorted t₁)
      (((sortTable_perm t₁).map Prod.fst).nodup_iff.mpr hnd)
  have hs₂ : List.Sorted (fun a b : String × String => a.1 < b.1) (sortTable t₂) :=
    sorted_lt_of_sorted_le_nodup (sortTable_sorted t₂)
      (((sortTable_perm t₂).map Prod.fst).nodup_iff.mpr hnd₂)
  exact List.eq_of_perm_of_sorted hp hs₁ hs₂

/-- **C5.** Each serialized dictionary document carries a single top-level
key equal to its namespace (and file name), maps every key to itself, lists
its keys in strictly increasing lexicographic order, and its contents do not
depend on the order in which the run performed its insertions. -/
theorem writeLocaleFiles_sorted_and_order_independent :
    ∀ (cw : List String) (l : List (String × String)),
      (∀ d ∈ writeLocaleFiles (builtReg cw l),
        d.2.1 = d.1 ∧
        (d.2.2.map Prod.fst).Pairwise (· < ·) ∧
        ∀ p ∈ d.2.2, p.2 = p.1) ∧
      (∀ l₂, l.Perm l₂ → ∀ ns,
        sortTable (moduleTable (builtReg cw l) ns) =
          sortTable (moduleTable (builtReg cw l₂) ns)) := by
  intro cw l
  constructor
  · intro d hd
    rcases List.mem_map.mp hd with ⟨e, he, hde⟩
    have hok := builtReg_ok cw l e he
    subst hde
    refine ⟨rfl, ?_, ?_⟩
    · have hlt := sorted_lt_of_sorted_le_nodup (sortTable_sorted e.2)
        (((sortTable_perm e.2).map Prod.fst).nodup_iff.mpr hok.1)
      exact List.pairwise_map.mpr hlt
    · intro p hp
      exact hok.2 p ((sortTable_perm e.2).mem_iff.mp hp)
  · intro l₂ hperm ns
    have hok₁ := moduleTable_ok (builtReg_ok cw l) ns
    have hok₂ := moduleTable_ok (builtReg_ok cw l₂) ns
    have hmem : ∀ p, p ∈ moduleTable (builtReg cw l) ns ↔
        p ∈ moduleTable (builtReg cw l₂) ns := by
      intro p
      constructor
      · intro hp
        have hkey : p.1 ∈ (moduleTable (builtReg cw l) ns).map Prod.fst :=
          List.mem_map.mpr ⟨p, hp, rfl⟩
        rw [mem_keys_moduleTable] at hkey
        have hlk : regLookup (builtReg cw l₂) ns p.1 = true := by
          have heq := applyInserts_perm_lookup cw l l₂ [] ns p.1 hperm
          show regLookup (applyInserts cw [] l₂) ns p.1 = true
          rw [← heq]
          exact hkey
        have hkey₂ : p.1 ∈ (moduleTable (builtReg cw l₂) ns).map Prod.fst :=
          (mem_keys_moduleTable _ _ _).mpr hlk
        have hp2 := hok₁.2 p hp
        have : p = (p.1, p.1) := by
          obtain ⟨a, b⟩ := p
          simp only at hp2
          subst hp2; rfl
        rw [this]
        exact pair_mem_of_key_mem hok₂.2 hkey₂
      · intro hp
        have hkey : p.1 ∈ (moduleTable (builtReg cw l₂) ns).map Prod.fst :=
          List.mem_map.mpr ⟨p, hp, rfl⟩
        rw [mem_keys_moduleTable] at hkey
        have hlk : regLookup (builtReg cw l) ns p.1 = true := by
          have heq := applyInserts_perm_lookup cw l l₂ [] ns p.1 hperm
          show regLookup (applyInserts cw [] l) ns p.1 = true
          rw [heq]
          exact hkey
        have hkey₂ : p.1 ∈ (moduleTable (builtReg cw l) ns).map Prod.fst :=
          (mem_keys_moduleTable _ _ _).mpr hlk
        have hp2 := hok₂.2 p hp
        have : p = (p.1, p.1) := by
          obtain ⟨a, b⟩ := p
          simp only at hp2
          subst hp2; rfl
        rw [this]
        exact pair_mem_of_key_mem hok₁.2 hkey₂
    have hpairnd : (moduleTable (builtReg cw l) ns).Nodup :=
      List.Nodup.of_map _ hok₁.1
    have hpairnd₂ : (moduleTable (builtReg cw l₂) ns).Nodup :=
      List.Nodup.of_map _ hok₂.1
    have htperm : (moduleTable (builtReg cw l) ns).Perm
        (moduleTable (builtReg cw l₂) ns) :=
      (List.perm_ext_iff_of_nodup hpairnd hpairnd₂).mpr hmem
    exact sortTable_eq_of_perm htperm hok₁.1

/-- Closed witness for the hypotheses of
`writeLocaleFiles_sorted_and_order_independent`. -/
theorem writeLocaleFiles_sorted_and_order_independent_witness :
    sortTable (moduleTable (builtReg []
        [(("test"), ("好")), (("test"), ("你"))]) ("test")) =
      sortTable (moduleTable (builtReg []
        [(("test"), ("你")), (("test"), ("好"))]) ("test")) :=
  (writeLocaleFiles_sorted_and_order_independent []
      [(("test"), ("好")), (("test"), ("你"))]).2
    [(("test"), ("你")), (("test"), ("好"))] (by decide) ("test")

/-! ### Character constants (written via code points to keep the scanners
readable next to the regexes they model) -/

/-- The single-quote character. -/
def squoteC : Char := Char.ofNat 39

/-- The double-quote character. -/
def dquoteC : Char := '"'

/-- The opening-brace character. -/
def lbrace : Char := Char.ofNat 123

/-- The closing-brace character. -/
def rbrace : Char := Char.ofNat 125

/-- The backslash character. -/
def bslashC : Char := Char.ofNat 92

/-- Quote characters, as in the regex classes `['"]` and `[^'"]`. -/
def isQuoteChar (c : Char) : Bool := c = squoteC || c = dquoteC

/-! ### A JS-subset parser and printer

`transformScript` and `transformBindingExpression` call the external
`@babel/parser` / `@babel/generator` packages.  They are modelled here on the
JS fragment the engine actually exercises: identifiers (including CJK
identifier characters), single- and double-quoted string literals without
escapes, call expressions, and `const`/`let`/`var` declarations.  Outside
this fragment the modelled parser fails, which corresponds to the engine's
parse-failure paths. -/

/-- Identifier-start character of the modelled JS subset. -/
def isIdStart (c : Char) : Bool := c.isAlpha || c = '_' || c = '$' || isCJK c

/-- Identifier character of the modelled JS subset. -/
def isIdChar (c : Char) : Bool := isIdStart c || c.isDigit

/-- Skip leading whitespace. -/
def skipWs (s : List Char) : List Char := s.dropWhile isWsChar

/-- Parse one identifier. -/
def parseIdent : List Char → Option (String × List Char)
  | [] => none
  | c :: cs =>
    if isIdStart c then
      some (String.mk ((c :: cs).takeWhile isIdChar), (c :: cs).dropWhile isIdChar)
    else none

/-- Parse one quoted string literal (no escapes, no embedded newline). -/
def parseStringLit : List Char → Option (String × List Char)
  | [] => none
  | q :: cs =>
    if isQuoteChar q then
      let stop := fun c => c = q || c = bslashC || c = '\n'
      match cs.dropWhile (fun c => !(stop c)) with
      | c :: rest => if c = q then some (String.mk (cs.takeWhile (fun c => !(stop c))), rest) else none
      | [] => none
    else none

/-- Parse a primary expression: string literal or identifier. -/
def parsePrimary (s : List Char) : Option (JsExpr × List Char) :=
  let s := skipWs s
  match parseStringLit s with
  | some (v, rest) => some (JsExpr.str v, rest)
  | none =>
    match parseIdent s with
    | some (n, rest) => some (JsExpr.ident n, rest)
    | none => none

mutual

/-- Parse an expression of the modelled subset (fuel-indexed). -/
def parseExprFuel : Nat → List Char → Option (JsExpr × List Char)
  | 0, _ => none
  | fuel + 1, s =>
    match parsePrimary s with
    | none => none
    | some (e, rest) => parseCallSuffix fuel e rest

/-- Parse a (possibly repeated) call-argument suffix. -/
def parseCallSuffix : Nat → JsExpr → List Char → Option (JsExpr × List Char)
  | 0, _, _ => none
  | fuel + 1, e, s =>
    match skipWs s with
    | '(' :: rest =>
      match skipWs rest with
      | ')' :: rest2 => parseCallSuffix fuel (JsExpr.call e []) rest2
      | rest2 =>
        match parseArgs fuel rest2 with
        | some (args, rest3) =>
          match skipWs rest3 with
          | ')' :: rest4 => parseCallSuffix fuel (JsExpr.call e args) rest4
          | _ => none
        | none => none
    | _ => some (e, s)

/-- Parse a comma-separated nonempty argument list. -/
def parseArgs : Nat → List Char → Option (List JsExpr × List Char)
  | 0, _ => none
  | fuel + 1, s =>
    match parseExprFuel fuel s with
    | none => none
    | some (e, rest) =>
      match skipWs rest with
      | ',' :: rest2 =>
        match parseArgs fuel rest2 with
        | some (es, rest3) => some (e :: es, rest3)
        | none => none
      | _ => some ([e], rest)

end

/-- Model of parsing the synthetic unit `const __temp = <expression>;`
(src/index.js line 75): the expression must parse in the modelled subset and
leave nothing but whitespace (and an optional semicolon). -/
def parseExpression (s : String) : Option JsExpr :=
  match parseExprFuel (2 * s.data.length + 2) s.data with
  | some (e, rest) =>
    match skipWs rest with
    | [] => some e
    | c :: rest2 => if c = ';' && (skipWs rest2).isEmpty then some e else none
  | none => none

/-- Comma-space separated concatenation, as the generator prints argument
lists. -/
def joinComma : List (List Char) → List Char
  | [] => []
  | [x] => x
  | x :: xs => x ++ ',' :: ' ' :: joinComma xs

mutual

/-- Size measure used as printer/visitor fuel (the derived `sizeOf` has no
executable code for this nested inductive type). -/
def jsSize : JsExpr → Nat
  | JsExpr.str _ => 1
  | JsExpr.ident _ => 1
  | JsExpr.call f args => 1 + jsSize f + jsSizeList args
  | JsExpr.tpl _ es => 1 + jsSizeList es

/-- Size measure for expression lists. -/
def jsSizeList : List JsExpr → Nat
  | [] => 0
  | e :: es => 1 + jsSize e + jsSizeList es

end

mutual

/-- Printer for the modelled JS subset (fuel-indexed); `q` is the quote
style used for string literals (`jsescOption.quotes`). -/
def genExprFuel (q : Char) : Nat → JsExpr → List Char
  | 0, _ => []
  | _ + 1, JsExpr.str v => q :: v.data ++ [q]
  | _ + 1, JsExpr.ident n => n.data
  | fuel + 1, JsExpr.call f args =>
    genExprFuel q fuel f ++ '(' :: (joinComma (args.map (genExprFuel q fuel)) ++ [')'])
  | fuel + 1, JsExpr.tpl qs es => Char.ofNat 96 :: genTplParts q fuel qs es ++ [Char.ofNat 96]

/-- Printer for the alternating quasi/expression parts of a template
literal. -/
def genTplParts (q : Char) : Nat → List String → List JsExpr → List Char
  | _, [], [] => []
  | 0, _, _ => []
  | fuel + 1, [], e :: es =>
    '$' :: lbrace :: (genExprFuel q fuel e ++ rbrace :: genTplParts q fuel [] es)
  | fuel + 1, qh :: qt, [] => qh.data ++ genTplParts q fuel qt []
  | fuel + 1, qh :: qt, e :: es =>
    qh.data ++ '$' :: lbrace :: (genExprFuel q fuel e ++ rbrace :: genTplParts q fuel qt es)

end

/-- Printer entry point. -/
def genExpr (q : Char) (e : JsExpr) : List Char := genExprFuel q (jsSize e) e

/-- Does this callee have the name `$t`
(`path.parent.callee.name === "$t"`)? -/
def calleeIsT : JsExpr → Bool
  | JsExpr.ident n => n == ("$t")
  | _ => false

/-! ### The template-literal visitor (src/index.js lines 262-327) -/

/-- Per-quasi splitting `text.split(/([一-龥]+)/).filter(Boolean)`: the
maximal alternating runs of CJK and non-CJK characters, without empties. -/
def splitCJKRuns : Nat → List Char → List (List Char)
  | 0, s => if s.isEmpty then [] else [s]
  | _, [] => []
  | fuel + 1, c :: cs =>
    let p := isCJK c
    (c :: cs).takeWhile (fun d => isCJK d == p) ::
      splitCJKRuns fuel ((c :: cs).dropWhile (fun d => isCJK d == p))

/-- The per-quasi segment loop of the `TemplateLiteral` visitor: walk the
alternating runs, flushing pending non-CJK text as a quasi and splicing a
`$t` call plus an empty quasi for every CJK run. -/
def processQuasi (cw : List String) (m : String) (raw : String) :
    List String × List JsExpr × List (String × String) :=
  let fin := (splitCJKRuns raw.data.length raw.data).foldl
    (fun (st : List String × List JsExpr × List (String × String) × List Char) seg =>
      let (qs, es, ins, pending) := st
      if containsCJK seg then
        let flushed := if pending.isEmpty then qs else qs ++ [String.mk pending]
        let text := String.mk seg
        (flushed ++ [("")], es ++ [getTCallExpression cw text m],
          ins ++ [(m, text)], [])
      else (qs, es, ins, pending ++ seg))
    ([], [], [], [])
  let (qs, es, ins, pending) := fin
  (if pending.isEmpty then qs else qs ++ [String.mk pending], es, ins)

/-- The main loop of the `TemplateLiteral` visitor over the original quasis,
interleaving the original expressions positionally (`if (i <
expressions.length)` pushes the original expression and an empty quasi). -/
def tlGo (cw : List String) (m : String) :
    List String → List JsExpr → List String × List JsExpr × List (String × String)
  | [], _ => ([], [], [])
  | q :: qs, [] =>
    let (q1, e1, i1) := processQuasi cw m q
    let (q2, e2, i2) := tlGo cw m qs []
    (q1 ++ q2, e1 ++ e2, i1 ++ i2)
  | q :: qs, e :: es =>
    let (q1, e1, i1) := processQuasi cw m q
    let (q2, e2, i2) := tlGo cw m qs es
    (q1 ++ ("") :: q2, e1 ++ e :: e2, i1 ++ i2)

/-- Model of the `TemplateLiteral` visitor (src/index.js lines 262-327):
`none` when the node is skipped because no static segment contains CJK text;
otherwise the rewritten quasis, rewritten expression list, and the
`addLocale` requests.  The final `while` loop pads the quasi list with empty
quasis only while `newQuasis.length <= newExpressions.length`; marking the
last quasi as a tail does not change its text and is the identity here. -/
def templateLiteralVisitor (cw : List String) (m : String)
    (quasis : List String) (exprs : List JsExpr) :
    Option (List String × List JsExpr × List (String × String)) :=
  if quasis.any (fun q => containsCJK q.data) then
    let r := tlGo cw m quasis exprs
    let nq := if r.1.length ≤ r.2.1.length then
        r.1 ++ List.replicate (r.2.1.length + 1 - r.1.length) ("")
      else r.1
    some (nq, r.2.1, r.2.2)
  else none

/-! ### The script rewriter proper -/

/-- The string-literal / template-literal visitor pass over an expression
(fuel-indexed; `sizeOf` bounds the recursion depth).  String literals that
sit directly under a `$t` call are skipped (idempotence guard). -/
def trExprFuel (cw : List String) (m : String) :
    Nat → JsExpr → JsExpr × List (String × String)
  | 0, e => (e, [])
  | _ + 1, JsExpr.str v =>
    if containsCJK v.data then
      let text := jsTrim v
      (getTCallExpression cw text m, [(m, text)])
    else (JsExpr.str v, [])
  | _ + 1, JsExpr.ident n => (JsExpr.ident n, [])
  | fuel + 1, JsExpr.call f args =>
    let fr := trExprFuel cw m fuel f
    let skipStr := calleeIsT fr.1
    let step := args.foldl
      (fun (acc : List JsExpr × List (String × String)) a =>
        match a with
        | JsExpr.str v =>
          if skipStr then (acc.1 ++ [JsExpr.str v], acc.2)
          else
            let ar := trExprFuel cw m fuel (JsExpr.str v)
            (acc.1 ++ [ar.1], acc.2 ++ ar.2)
        | a =>
          let ar := trExprFuel cw m fuel a
          (acc.1 ++ [ar.1], acc.2 ++ ar.2))
      ([], [])
    (JsExpr.call fr.1 step.1, fr.2 ++ step.2)
  | fuel + 1, JsExpr.tpl qs es =>
    match templateLiteralVisitor cw m qs es with
    | some (nq, ne, ins) =>
      let step := ne.foldl
        (fun (acc : List JsExpr × List (String × String)) e =>
          let er := trExprFuel cw m fuel e
          (acc.1 ++ [er.1], acc.2 ++ er.2))
        ([], [])
      (JsExpr.tpl nq step.1, ins ++ step.2)
    | none =>
      let step := es.foldl
        (fun (acc : List JsExpr × List (String × String)) e =>
          let er := trExprFuel cw m fuel e
          (acc.1 ++ [er.1], acc.2 ++ er.2))
        ([], [])
      (JsExpr.tpl qs step.1, step.2)

/-- Visitor entry point. -/
def trExpr (cw : List String) (m : String) (e : JsExpr) :
    JsExpr × List (String × String) :=
  trExprFuel cw m (jsSize e) e

/-- Statement of the modelled JS subset. -/
inductive JsStmt where
  | exprStmt (e : JsExpr)
  | varDecl (kw : String) (name : String) (init : JsExpr)

/-- Visitor over one statement. -/
def trStmt (cw : List String) (m : String) : JsStmt → JsStmt × List (String × String)
  | JsStmt.exprStmt e =>
    let r := trExpr cw m e
    (JsStmt.exprStmt r.1, r.2)
  | JsStmt.varDecl kw n e =>
    let r := trExpr cw m e
    (JsStmt.varDecl kw n r.1, r.2)

/-- Parse one statement of the modelled subset. -/
def parseStmtFuel : Nat → List Char → Option (JsStmt × List Char)
  | 0, _ => none
  | fuel + 1, s =>
    let s := skipWs s
    match parseIdent s with
    | some (kw, rest) =>
      if kw = ("const") || kw = ("let") || kw = ("var") then
        match parseIdent (skipWs rest) with
        | some (name, rest2) =>
          match skipWs rest2 with
          | '=' :: rest3 =>
            match parseExprFuel fuel rest3 with
            | some (e, rest4) =>
              match skipWs rest4 with
              | ';' :: rest5 => some (JsStmt.varDecl kw name e, rest5)
              | rest5 => some (JsStmt.varDecl kw name e, rest5)
            | none => none
          | _ => none
        | none => none
      else
        match parseExprFuel fuel s with
        | some (e, rest2) =>
          match skipWs rest2 with
          | ';' :: rest3 => some (JsStmt.exprStmt e, rest3)
          | rest3 => some (JsStmt.exprStmt e, rest3)
        | none => none
    | none =>
      match parseExprFuel fuel s with
      | some (e, rest2) =>
        match skipWs rest2 with
        | ';' :: rest3 => some (JsStmt.exprStmt e, rest3)
        | rest3 => some (JsStmt.exprStmt e, rest3)
      | none => none

/-- Parse a whole program of the modelled subset. -/
def parseProgramFuel : Nat → List Char → Option (List JsStmt)
  | 0, s => if (skipWs s).isEmpty then some [] else none
  | fuel + 1, s =>
    if (skipWs s).isEmpty then some [] else
      match parseStmtFuel (fuel + 1) (skipWs s) with
      | some (st, rest) =>
        match parseProgramFuel fuel rest with
        | some sts => some (st :: sts)
        | none => none
      | none => none

/-- Parser entry point for whole scripts. -/
def parseProgram (s : String) : Option (List JsStmt) :=
  parseProgramFuel (2 * s.data.length + 2) s.data

/-- Printer for one statement. -/
def genStmt : JsStmt → List Char
  | JsStmt.exprStmt e => genExpr dquoteC e ++ [';']
  | JsStmt.varDecl kw n e =>
    kw.data ++ ' ' :: (n.data ++ ' ' :: '=' :: ' ' :: (genExpr dquoteC e ++ [';']))

/-- Newline-separated concatenation of printed statements. -/
def genProgram : List JsStmt → List Char
  | [] => []
  | [st] => genStmt st
  | st :: sts => genStmt st ++ '\n' :: genProgram sts

/-- Model of `transformScript` (src/index.js lines 242-353) over the
modelled JS subset: parse the script, run the string-literal and
template-literal visitors, and regenerate.  `none` models the parse
exception, which is fatal for the unit. -/
def transformScript (cw : List String) (m : String) (script : String) :
    Option (String × List (String × String)) :=
  match parseProgram script with
  | none => none
  | some prog =>
    let step := prog.foldl
      (fun (acc : List JsStmt × List (String × String)) st =>
        let r := trStmt cw m st
        (acc.1 ++ [r.1], acc.2 ++ r.2))
      ([], [])
    some (String.mk (genProgram step.1), step.2)

/-! ### The binding-expression rewriter (src/index.js lines 73-127) -/

/-- Characters of the string-level fallback class `[一-龥：:，,。！!]` used
by the second pass of `transformBindingExpression`. -/
def isZhPunct (c : Char) : Bool :=
  isCJK c || c = '：' || c = ':' || c = '，' || c = ',' || c = '。' ||
    c = '！' || c = '!'

/-- The string-level fallback pass: replace every maximal run of the class
with an interpolated `$t` reference, recording each run. -/
def strLevelReplace (cw : List String) (m : String) :
    Nat → List Char → List Char × List (String × String)
  | 0, s => (s, [])
  | _, [] => ([], [])
  | fuel + 1, c :: cs =>
    if isZhPunct c then
      let run := (c :: cs).takeWhile isZhPunct
      let rest := (c :: cs).dropWhile isZhPunct
      let textL := trimChars run
      if textL.isEmpty then
        let r := strLevelReplace cw m fuel rest
        (run ++ r.1, r.2)
      else
        let text := String.mk textL
        let key := resolveModule cw m text ++ (".") ++ text
        let r := strLevelReplace cw m fuel rest
        ('$' :: lbrace :: '$' :: 't' :: '(' :: squoteC :: (key.data ++
          squoteC :: ')' :: rbrace :: r.1), (m, text) :: r.2)
    else
      let r := strLevelReplace cw m fuel cs
      (c :: r.1, r.2)

/-- Model of `transformBindingExpression` (src/index.js lines 73-127).
Returns the rewritten expression text, the `addLocale` requests, and whether
the non-fatal parse-failure warning was recorded.  On parse failure the
original fragment is returned unchanged and nothing is recorded. -/
def transformBindingExpression (cw : List String) (m : String)
    (expression : String) : String × List (String × String) × Bool :=
  match parseExpression expression with
  | none => (expression, [], true)
  | some ast =>
    let r := trExpr cw m ast
    let codeL := genExpr squoteC r.1
    if hasSub (("$t(").data) codeL then (String.mk codeL, r.2, false)
    else
      let r2 := strLevelReplace cw m codeL.length codeL
      (String.mk r2.1, r.2 ++ r2.2, false)

/-- **C6.** A binding-expression fragment that fails to parse is returned
character-for-character unchanged, a non-fatal warning is recorded, and the
failed call contributes no registry insertion at all (replaying its empty
request list leaves any registry unchanged). -/
theorem transformBindingExpression_parse_failure :
    ∀ (cw : List String) (m e : String) (reg : LocaleMap),
      parseExpression e = none →
      transformBindingExpression cw m e = (e, [], true) ∧
      applyInserts cw reg [] = reg := by
  intro cw m e reg h
  constructor
  · unfold transformBindingExpression
    rw [h]
  · rfl

/-- Closed witness for the hypothesis of
`transformBindingExpression_parse_failure`: the fragment `)(` is
syntactically invalid. -/
theorem transformBindingExpression_parse_failure_witness :
    parseExpression (")(") = none ∧
    transformBindingExpression [] ("test") (")(") = ((")("), [], true) :=
  ⟨rfl, (transformBindingExpression_parse_failure [] ("test") (")(") [] rfl).1⟩

/-- **C2 evaluation.** On the template literal with raw text `a你b你` and no
interpolated expressions, the `TemplateLiteral` visitor produces four static
segments but only two interpolated expressions, violating the invariant that
the rewritten literal has exactly one more static segment than interpolated
expressions (the code's own `while` loop only fixes a deficit, never the
surplus). -/
theorem templateLiteralVisitor_count_violation :
    templateLiteralVisitor [] ("test") [("a你b你")] [] =
      some ([("a"), (""), ("b"), ("")],
        [getTCallExpression [] ("你") ("test"), getTCallExpression [] ("你") ("test")],
        [(("test"), ("你")), (("test"), ("你"))]) ∧
    ([("a"), (""), ("b"), ("")] : List String).length ≠
      ([getTCallExpression [] ("你") ("test"),
        getTCallExpression [] ("你") ("test")] : List JsExpr).length + 1 := by
  constructor
  · rfl
  · intro h
    simp at h

/-! ### The markup rewriter `transformTemplate` (src/index.js lines 129-240)

Four sequenced string passes, each modelling one `template.replace(regex,
callback)` with a global regex: leftmost match, replacement, and the scan
resumes after the match. -/

/-- A one-character string holding a single quote (used to write literals
without embedded quotes). -/
def sqS : String := String.mk [squoteC]

/-- Attribute-name class `[a-zA-Z0-9\-_:]`. -/
def isAttrChar (c : Char) : Bool :=
  c.isAlpha || c.isDigit || c = '-' || c = '_' || c = ':'

/-- Attempt to match `(\s)([a-zA-Z0-9\-_:]+)="([^"]*[一-龥]+[^"]*)"` at the
current position: a whitespace character, a maximal nonempty run of
attribute-name characters, `="`, and a value running to the next `"` that
contains a CJK character.  Returns the space, name, value, and the rest
after the closing quote. -/
def tryAttrAt : List Char → Option (Char × List Char × List Char × List Char)
  | [] => none
  | c :: cs =>
    if isWsChar c then
      let name := cs.takeWhile isAttrChar
      if name.isEmpty then none
      else
        match cs.dropWhile isAttrChar with
        | '=' :: q :: rest2 =>
          if q = dquoteC then
            let v := rest2.takeWhile (fun d => d ≠ dquoteC)
            match rest2.dropWhile (fun d => d ≠ dquoteC) with
            | _ :: rest3 => if containsCJK v then some (c, name, v, rest3) else none
            | [] => none
          else none
        | _ => none
    else none

/-- One-position match of the idempotence-guard regex
`\$t\(['"][^'"]+['"]\)`. -/
def tCallGuardAt : List Char → Bool
  | '$' :: 't' :: '(' :: q :: rest =>
    if isQuoteChar q then
      match rest.dropWhile (fun c => !(isQuoteChar c)) with
      | q2 :: c3 :: _ =>
        !(rest.takeWhile (fun c => !(isQuoteChar c))).isEmpty &&
          isQuoteChar q2 && c3 = ')'
      | _ => false
    else false
  | _ => false

/-- Substring test for the guard regex (`/\$t\(['"][^'"]+['"]\)/.test`). -/
def hasTCallGuard : List Char → Bool
  | [] => false
  | c :: cs => tCallGuardAt (c :: cs) || hasTCallGuard cs

/-- Is the attribute name dynamic
(`attrName.startsWith(":") || attrName.startsWith("v-bind")`)? -/
def isDynamicName (name : List Char) : Bool :=
  [':'].isPrefixOf name || (("v-bind").data).isPrefixOf name

/-- Replacement for one attribute match (the body of the callback at
src/index.js lines 133-152). -/
def attrRepl (cw : List String) (m : String) (sp : Char) (name v : List Char) :
    List Char × List (String × String) :=
  let textL := trimChars v
  if textL.isEmpty then
    (sp :: (name ++ '=' :: dquoteC :: v ++ [dquoteC]), [])
  else if isDynamicName name then
    if hasTCallGuard v then
      (sp :: (name ++ '=' :: dquoteC :: v ++ [dquoteC]), [])
    else
      let r := transformBindingExpression cw m (String.mk v)
      (sp :: (name ++ '=' :: dquoteC :: r.1.data ++ [dquoteC]), r.2.1)
  else
    let text := String.mk textL
    let key := resolveModule cw m text ++ (".") ++ text
    (sp :: ':' :: (name ++ '=' :: dquoteC :: '$' :: 't' :: '(' :: squoteC ::
      (key.data ++ squoteC :: ')' :: [dquoteC])), [(m, text)])

/-- Scanner of the attribute pass. -/
def attrGo (cw : List String) (m : String) :
    Nat → List Char → List Char × List (String × String)
  | _, [] => ([], [])
  | 0, s => (s, [])
  | fuel + 1, c :: cs =>
    match tryAttrAt (c :: cs) with
    | some (sp, name, v, rest) =>
      let repl := attrRepl cw m sp name v
      let r := attrGo cw m fuel rest
      (repl.1 ++ r.1, repl.2 ++ r.2)
    | none =>
      let r := attrGo cw m fuel cs
      (c :: r.1, r.2)

/-- The attribute pass (src/index.js lines 131-153). -/
def attrPass (cw : List String) (m : String) (s : List Char) :
    List Char × List (String × String) :=
  attrGo cw m s.length s

/-- One-position match of `<!--.*-->` after the opening (no newline may
intervene before `-->`). -/
def hasCloseBeforeNl : List Char → Bool
  | [] => false
  | c :: cs =>
    if c = '\n' || c = '\r' then false
    else (("-->").data).isPrefixOf (c :: cs) || hasCloseBeforeNl cs

/-- Substring test for the comment pattern `/<!--.*-->/`. -/
def hasCommentPat : List Char → Bool
  | [] => false
  | c :: cs =>
    ((("<!--").data).isPrefixOf (c :: cs) && hasCloseBeforeNl ((c :: cs).drop 4)) ||
      hasCommentPat cs

/-- Scan for the earliest `}\x7d` with no newline in between (the lazy
`.`-run of the split regex), returning the run and the remainder. -/
def untilDoubleRbrace : List Char → Option (List Char × List Char)
  | [] => none
  | c :: cs =>
    if c = rbrace && (match cs with | c2 :: _ => c2 = rbrace | [] => false) then
      some ([], cs.tail)
    else if c = '\n' || c = '\r' then none
    else
      match untilDoubleRbrace cs with
      | some (body, rest) => some (c :: body, rest)
      | none => none

/-- Find the leftmost interpolation segment `\x7b\x7b...\x7d\x7d`, returning
the text before it, the segment itself, and the remainder. -/
def findInterpSeg : List Char → Option (List Char × List Char × List Char)
  | [] => none
  | c :: cs =>
    if c = lbrace && (match cs with | c2 :: _ => c2 = lbrace | [] => false) then
      match untilDoubleRbrace cs.tail with
      | some (body, rest) =>
        some ([], lbrace :: lbrace :: (body ++ [rbrace, rbrace]), rest)
      | none =>
        match findInterpSeg cs with
        | some (pre, seg, rest) => some (c :: pre, seg, rest)
        | none => none
    else
      match findInterpSeg cs with
      | some (pre, seg, rest) => some (c :: pre, seg, rest)
      | none => none

/-- Model of `raw.split(/(\x7b\x7b.*?\x7d\x7d)/g).filter(Boolean)`. -/
def splitInterpSegs : Nat → List Char → List (List Char)
  | 0, s => if s.isEmpty then [] else [s]
  | fuel + 1, s =>
    match findInterpSeg s with
    | some (pre, seg, rest) =>
      (if pre.isEmpty then [seg] else [pre, seg]) ++ splitInterpSegs fuel rest
    | none => if s.isEmpty then [] else [s]

/-- Replace every maximal CJK run with `\x7b\x7b $t('key') \x7d\x7d`,
recording each run (the inner replace at src/index.js lines 176-182). -/
def zhRunReplace (cw : List String) (m : String) :
    Nat → List Char → List Char × List (String × String)
  | _, [] => ([], [])
  | 0, s => (s, [])
  | fuel + 1, c :: cs =>
    if isCJK c then
      let run := (c :: cs).takeWhile isCJK
      let rest := (c :: cs).dropWhile isCJK
      let text := String.mk run
      let key := resolveModule cw m text ++ (".") ++ text
      let r := zhRunReplace cw m fuel rest
      (lbrace :: lbrace :: ' ' :: '$' :: 't' :: '(' :: squoteC ::
        (key.data ++ squoteC :: ')' :: ' ' :: rbrace :: rbrace :: r.1),
        (m, text) :: r.2)
    else
      let r := zhRunReplace cw m fuel cs
      (c :: r.1, r.2)

/-- The tag-body callback (src/index.js lines 155-186): skip comments, text
without CJK, blank text and already-rewritten text; otherwise split off
interpolation segments (kept verbatim) and rewrite the CJK runs of the
remaining parts. -/
def tagBodyInner (cw : List String) (m : String) (raw : List Char) :
    List Char × List (String × String) :=
  if hasCommentPat raw || !containsCJK raw || raw.all isWsChar ||
      hasSub (("$t(").data) raw then
    (raw, [])
  else
    (splitInterpSegs raw.length raw).foldl
      (fun (acc : List Char × List (String × String)) part =>
        if [lbrace, lbrace].isPrefixOf part then (acc.1 ++ part, acc.2)
        else
          let r := zhRunReplace cw m part.length part
          (acc.1 ++ r.1, acc.2 ++ r.2))
      ([], [])

/-- Attempt to match `>([^<]*)<` at the current position; returns the inner
text and the rest after the `<`. -/
def tryTagBodyAt : List Char → Option (List Char × List Char)
  | [] => none
  | c :: cs =>
    if c = '>' then
      match cs.dropWhile (fun d => d ≠ '<') with
      | _ :: rest => some (cs.takeWhile (fun d => d ≠ '<'), rest)
      | [] => none
    else none

/-- Scanner of the tag-body pass. -/
def tagBodyGo (cw : List String) (m : String) :
    Nat → List Char → List Char × List (String × String)
  | _, [] => ([], [])
  | 0, s => (s, [])
  | fuel + 1, c :: cs =>
    match tryTagBodyAt (c :: cs) with
    | some (inner, rest) =>
      let ri := tagBodyInner cw m inner
      let r := tagBodyGo cw m fuel rest
      ('>' :: (ri.1 ++ '<' :: r.1), ri.2 ++ r.2)
    | none =>
      let r := tagBodyGo cw m fuel cs
      (c :: r.1, r.2)

/-- The tag-body pass (src/index.js lines 155-187, reapplied at 204-237). -/
def tagBodyPass (cw : List String) (m : String) (s : List Char) :
    List Char × List (String × String) :=
  tagBodyGo cw m s.length s

/-- Attempt to match the quoted-literal regex `(['"])([一-龥][^'"]*)\1` at
the current position: a quote, a CJK character, a run free of either quote,
and the same closing quote.  Returns the quote, the captured text, and the
rest. -/
def tryQuotedAt : List Char → Option (Char × List Char × List Char)
  | [] => none
  | q :: cs =>
    if isQuoteChar q then
      match cs with
      | c2 :: cs2 =>
        if isCJK c2 then
          match cs2.dropWhile (fun d => !(isQuoteChar d)) with
          | q2 :: rest =>
            if q2 = q then
              some (q, c2 :: cs2.takeWhile (fun d => !(isQuoteChar d)), rest)
            else none
          | [] => none
        else none
      | [] => none
    else none

/-- Scanner replacing quoted CJK-leading literals with `$t('key')`
(src/index.js lines 191-200); the captured text is recorded untrimmed. -/
def quotedGo (cw : List String) (m : String) :
    Nat → List Char → List Char × List (String × String)
  | _, [] => ([], [])
  | 0, s => (s, [])
  | fuel + 1, c :: cs =>
    match tryQuotedAt (c :: cs) with
    | some (_, zh, rest) =>
      let text := String.mk zh
      let key := resolveModule cw m text ++ (".") ++ text
      let r := quotedGo cw m fuel rest
      ('$' :: 't' :: '(' :: squoteC :: (key.data ++ squoteC :: ')' :: r.1),
        (m, text) :: r.2)
    | none =>
      let r := quotedGo cw m fuel cs
      (c :: r.1, r.2)

/-- Attempt to match `\x7b\x7b([^\x7b\x7d]*)\x7d\x7d` at the current
position; returns the expression body and the rest. -/
def tryInterpAt : List Char → Option (List Char × List Char)
  | c1 :: c2 :: cs =>
    if c1 = lbrace && c2 = lbrace then
      match cs.dropWhile (fun d => !(d = lbrace || d = rbrace)) with
      | d1 :: d2 :: rest =>
        if d1 = rbrace && d2 = rbrace then
          some (cs.takeWhile (fun d => !(d = lbrace || d = rbrace)), rest)
        else none
      | _ => none
    else none
  | _ => none

/-- Scanner of the interpolation-expression pass. -/
def interpGo (cw : List String) (m : String) :
    Nat → List Char → List Char × List (String × String)
  | _, [] => ([], [])
  | 0, s => (s, [])
  | fuel + 1, c :: cs =>
    match tryInterpAt (c :: cs) with
    | some (body, rest) =>
      let rb := quotedGo cw m body.length body
      let r := interpGo cw m fuel rest
      (lbrace :: lbrace :: (rb.1 ++ rbrace :: rbrace :: r.1), rb.2 ++ r.2)
    | none =>
      let r := interpGo cw m fuel cs
      (c :: r.1, r.2)

/-- The interpolation-expression pass (src/index.js lines 190-202). -/
def interpPass (cw : List String) (m : String) (s : List Char) :
    List Char × List (String × String) :=
  interpGo cw m s.length s

/-- Model of `transformTemplate` (src/index.js lines 129-240): the four
sequenced string passes — attributes, tag-body text, interpolation
expressions, tag-body text again — threading the rewritten text and
concatenating the `addLocale` requests in call order. -/
def transformTemplate (cw : List String) (m : String) (template : String) :
    String × List (String × String) :=
  let r1 := attrPass cw m template.data
  let r2 := tagBodyPass cw m r1.1
  let r3 := interpPass cw m r2.1
  let r4 := tagBodyPass cw m r3.1
  (String.mk r4.1, r1.2 ++ r2.2 ++ r3.2 ++ r4.2)

/-! ### The combined-unit processor `processVueFile` (src/index.js lines 356-388)

The engine decomposes a unit with the external `@vue/compiler-sfc` parser.
`sfcParse` below is modelled from the spec: the external parser decomposes a
combined unit into an optional template region, optional setup and
non-setup script regions (with their opening-tag attributes), and style
regions carrying their content and attributes.  The model is restricted to
well-formed units whose blocks close with literal `</template>`,
`</script>`, `</style>` tags. -/

/-- One style region of a combined unit as the external parser reports it. -/
structure StyleBlock where
  content : String
  scopedAttr : Bool
  lang : Option String
  otherAttrs : List (String × Option String)

/-- The descriptor fields of `parseSFC(content).descriptor` that the engine
reads, plus the attribute lists needed to state attribute-dropping facts. -/
structure SFCDescriptor where
  template : Option String
  scriptSetup : Option String
  scriptSetupAttrs : List (String × Option String)
  script : Option String
  styles : List StyleBlock

/-- Parse the attribute text of a block opening tag into (name, optional
value) pairs. -/
def parseAttrs : Nat → List Char → List (String × Option String)
  | 0, _ => []
  | fuel + 1, s =>
    let s := skipWs s
    let name := s.takeWhile (fun c => !(isWsChar c || c = '='))
    if name.isEmpty then []
    else
      match s.dropWhile (fun c => !(isWsChar c || c = '=')) with
      | '=' :: q :: rest2 =>
        if q = dquoteC then
          let v := rest2.takeWhile (fun d => d ≠ dquoteC)
          match rest2.dropWhile (fun d => d ≠ dquoteC) with
          | _ :: rest3 => (String.mk name, some (String.mk v)) :: parseAttrs fuel rest3
          | [] => [(String.mk name, some (String.mk v))]
        else (String.mk name, none) :: parseAttrs fuel (q :: rest2)
      | rest => (String.mk name, none) :: parseAttrs fuel rest

/-- Split at the first occurrence of `pat`, returning the text before it and
the text after it; `none` when `pat` does not occur. -/
def splitAtSub (pat : List Char) : List Char → Option (List Char × List Char)
  | [] => if pat.isEmpty then some ([], []) else none
  | c :: cs =>
    if pat.isPrefixOf (c :: cs) then some ([], (c :: cs).drop pat.length)
    else
      match splitAtSub pat cs with
      | some (pre, rest) => some (c :: pre, rest)
      | none => none

/-- Modelled from the spec: the external SFC parser's decomposition of a
combined unit into template, setup/non-setup script, and style regions.  A
`<script …>` block with a `setup` attribute fills `scriptSetup`; one without
fills `script`; `<style …>` blocks record their `scoped` flag, `lang`
attribute, remaining attributes, and raw content. -/
def sfcParseGo : Nat → List Char → SFCDescriptor → Option SFCDescriptor
  | 0, s, d => if s.isEmpty then some d else none
  | fuel + 1, s, d =>
    match s with
    | [] => some d
    | c :: cs =>
      if c = '<' then
        if (("template>").data).isPrefixOf cs then
          match splitAtSub (("</template>").data) (cs.drop 9) with
          | some (content, rest) =>
            sfcParseGo fuel rest { d with template := some (String.mk content) }
          | none => none
        else if (("script").data).isPrefixOf cs then
          let afterName := cs.drop 6
          let attrsTxt := afterName.takeWhile (fun d => d ≠ '>')
          match afterName.dropWhile (fun d => d ≠ '>') with
          | _ :: body =>
            match splitAtSub (("</script>").data) body with
            | some (content, rest) =>
              let attrs := parseAttrs attrsTxt.length attrsTxt
              if attrs.any (fun a => a.1 == ("setup")) then
                sfcParseGo fuel rest { d with
                  scriptSetup := some (String.mk content),
                  scriptSetupAttrs := attrs }
              else
                sfcParseGo fuel rest { d with script := some (String.mk content) }
            | none => none
          | [] => none
        else if (("style").data).isPrefixOf cs then
          let afterName := cs.drop 5
          let attrsTxt := afterName.takeWhile (fun d => d ≠ '>')
          match afterName.dropWhile (fun d => d ≠ '>') with
          | _ :: body =>
            match splitAtSub (("</style>").data) body with
            | some (content, rest) =>
              let attrs := parseAttrs attrsTxt.length attrsTxt
              sfcParseGo fuel rest { d with styles := d.styles ++
                [{ content := String.mk content,
                   scopedAttr := attrs.any (fun a => a.1 == ("scoped")),
                   lang := (attrs.find? (fun a => a.1 == ("lang"))).bind (fun a => a.2),
                   otherAttrs := attrs.filter
                     (fun a => !(a.1 == ("scoped") || a.1 == ("lang"))) }] }
            | none => none
          | [] => none
        else
          sfcParseGo fuel cs d
      else
        sfcParseGo fuel cs d

/-- Parser entry point for combined units. -/
def sfcParse (content : String) : Option SFCDescriptor :=
  sfcParseGo (content.data.length + 1) content.data
    { template := none, scriptSetup := none, scriptSetupAttrs := [],
      script := none, styles := [] }

/-- Re-serialization of one style region (src/index.js lines 374-381): only
the `scoped` flag and the `lang` attribute are re-emitted, around the
newline-padded original content. -/
def styleBlockStr (sb : StyleBlock) : List Char :=
  ("<style").data ++
    (if sb.scopedAttr then (" scoped").data else []) ++
    (match sb.lang with
     | some l => (" lang=").data ++ dquoteC :: (l.data ++ [dquoteC])
     | none => []) ++
    '>' :: '\n' :: (sb.content.data ++ '\n' :: ("</style>").data)

/-- Newline-joined concatenation (`styles.map(...).join("\n")`). -/
def joinNlList : List (List Char) → List Char
  | [] => []
  | [x] => x
  | x :: xs => x ++ '\n' :: joinNlList xs

/-- The `newContent` template literal (src/index.js lines 367-383) before
`.trim()`. -/
def assembleRaw (S T : List Char) (sts : List StyleBlock) : List Char :=
  ("\n<script setup lang=\"ts\">\n").data ++ S ++
    ("\n</script>\n<template>\n").data ++ T ++ ("\n</template>\n").data ++
    joinNlList (sts.map styleBlockStr) ++ ("\n").data

/-- The emitted unit after `.trim()`: the fixed script opening tag, the
newline-padded transformed regions, and the re-serialized styles. -/
def assembleOut (S T : List Char) (sts : List StyleBlock) : List Char :=
  ("<script setup lang=\"ts\">\n").data ++ S ++
    ("\n</script>\n<template>\n").data ++ T ++ ("\n</template>").data ++
    (if sts.isEmpty then [] else '\n' :: joinNlList (sts.map styleBlockStr))

/-- The descriptor-level body of `processVueFile` (src/index.js lines
360-386): transform the template (when present) and the setup script (when
present), then re-serialize; a script parse failure is fatal for the
unit (`none`). -/
def processVueDesc (cw : List String) (m : String) (d : SFCDescriptor) :
    Option (String × List (String × String)) :=
  let template := d.template.getD ("")
  let script := d.scriptSetup.getD ("")
  let rt := if template.data.isEmpty then (("" : String), ([] : List (String × String)))
    else transformTemplate cw m template
  match (if script.data.isEmpty then
      some (("" : String), ([] : List (String × String)))
    else transformScript cw m script) with
  | none => none
  | some rs =>
    some (String.mk (trimChars (assembleRaw rs.1.data rt.1.data d.styles)),
      rt.2 ++ rs.2)

/-- Model of `processVueFile` on one unit's content. -/
def processVueFile (cw : List String) (m : String) (content : String) :
    Option (String × List (String × String)) :=
  match sfcParse content with
  | none => none
  | some d => processVueDesc cw m d

/-! ### Trim and assembly lemmas -/

/-- Right-trim on character lists. -/
def trimR (s : List Char) : List Char := (s.reverse.dropWhile isWsChar).reverse

theorem trimChars_eq_trimR (s : List Char) :
    trimChars s = trimR (s.dropWhile isWsChar) := rfl

theorem trimR_append_ws (xs : List Char) (c : Char) (h : isWsChar c = true) :
    trimR (xs ++ [c]) = trimR xs := by
  unfold trimR
  rw [List.reverse_append, List.reverse_singleton, List.singleton_append,
    List.dropWhile_cons, h]
  simp

theorem trimR_append_nonws (xs : List Char) (c : Char) (h : isWsChar c = false) :
    trimR (xs ++ [c]) = xs ++ [c] := by
  unfold trimR
  rw [List.reverse_append, List.reverse_singleton, List.singleton_append,
    List.dropWhile_cons, h]
  simp

theorem styleBlockStr_ends (sb : StyleBlock) :
    ∃ ys, styleBlockStr sb = ys ++ ['>'] := by
  refine ⟨("<style").data ++
    (if sb.scopedAttr then (" scoped").data else []) ++
    (match sb.lang with
     | some l => (" lang=").data ++ dquoteC :: (l.data ++ [dquoteC])
     | none => []) ++
    '>' :: '\n' :: (sb.content.data ++ '\n' :: ("</style").data), ?_⟩
  unfold styleBlockStr
  have : ("</style>").data = ("</style").data ++ ['>'] := rfl
  rw [this]
  simp

theorem joinNl_styles_ends (sts : List StyleBlock) (h : sts ≠ []) :
    ∃ ys, joinNlList (sts.map styleBlockStr) = ys ++ ['>'] := by
  induction sts with
  | nil => exact absurd rfl h
  | cons sb rest ih =>
    cases rest with
    | nil =>
      rcases styleBlockStr_ends sb with ⟨ys, hy⟩
      exact ⟨ys, by simp [joinNlList, hy]⟩
    | cons sb2 rest2 =>
      rcases ih (by simp) with ⟨ys, hy⟩
      refine ⟨styleBlockStr sb ++ '\n' :: ys, ?_⟩
      have hj : joinNlList (styleBlockStr sb :: styleBlockStr sb2 ::
          rest2.map styleBlockStr) = styleBlockStr sb ++ '\n' ::
          joinNlList (styleBlockStr sb2 :: rest2.map styleBlockStr) := rfl
      simp only [List.map_cons] at hy ⊢
      rw [hj, hy]
      simp

theorem trimR_append_nl (xs : List Char) : trimR (xs ++ ['\n']) = trimR xs :=
  trimR_append_ws xs '\n' (by decide)

theorem trimR_append_gt (xs : List Char) : trimR (xs ++ ['>']) = xs ++ ['>'] :=
  trimR_append_nonws xs '>' (by decide)

theorem trim_assembleRaw (S T : List Char) (sts : List StyleBlock) :
    trimChars (assembleRaw S T sts) = assembleOut S T sts := by
  rw [trimChars_eq_trimR]
  have hd : (assembleRaw S T sts).dropWhile isWsChar =
      ("<script setup lang=\"ts\">\n").data ++ S ++
        ("\n</script>\n<template>\n").data ++ T ++ ("\n</template>\n").data ++
        joinNlList (sts.map styleBlockStr) ++ ("\n").data := by
    unfold assembleRaw
    have h1 : ("\n<script setup lang=\"ts\">\n").data =
        '\n' :: '<' :: ("script setup lang=\"ts\">\n").data := rfl
    rw [h1]
    have h2 : isWsChar '\n' = true := rfl
    have h3 : isWsChar '<' = false := rfl
    simp only [List.cons_append, List.dropWhile_cons, h2, h3]
    rfl
  rw [hd]
  by_cases hsts : sts = []
  · subst hsts
    have hj : joinNlList (List.map styleBlockStr []) = [] := rfl
    rw [hj]
    have h4 : ("\n</template>\n").data = ("\n</template").data ++ ['>', '\n'] := rfl
    have h5 : ("\n").data = (['\n'] : List Char) := rfl
    rw [h4, h5]
    have heq : ("<script setup lang=\"ts\">\n").data ++ S ++
        ("\n</script>\n<template>\n").data ++ T ++
        (("\n</template").data ++ ['>', '\n']) ++ [] ++ ['\n'] =
        ((((("<script setup lang=\"ts\">\n").data ++ S ++
          ("\n</script>\n<template>\n").data ++ T ++
          ("\n</template").data) ++ ['>']) ++ ['\n']) ++ ['\n']) := by
      simp
    rw [heq, trimR_append_nl, trimR_append_nl, trimR_append_gt]
    unfold assembleOut
    have h6 : ("\n</template>").data = ("\n</template").data ++ ['>'] := rfl
    rw [h6]
    simp
  · rcases joinNl_styles_ends sts hsts with ⟨ys, hy⟩
    rw [hy]
    have h5 : ("\n").data = (['\n'] : List Char) := rfl
    rw [h5]
    have heq : ("<script setup lang=\"ts\">\n").data ++ S ++
        ("\n</script>\n<template>\n").data ++ T ++ ("\n</template>\n").data ++
        (ys ++ ['>']) ++ ['\n'] =
        (((("<script setup lang=\"ts\">\n").data ++ S ++
          ("\n</script>\n<template>\n").data ++ T ++ ("\n</template>\n").data ++
          ys) ++ ['>']) ++ ['\n']) := by
      simp
    rw [heq, trimR_append_nl, trimR_append_gt]
    unfold assembleOut
    have hne : sts.isEmpty = false := by
      cases sts
      · exact absurd rfl hsts
      · rfl
    rw [hne, hy]
    have h7 : ("\n</template>\n").data = ("\n</template>").data ++ ['\n'] := rfl
    rw [h7]
    simp

/-- **C1 counterexample.** Re-running the engine on its own output is not
byte-identical: on the unit `<template>\n<p>hi</p>\n</template>` the first
run emits a fixed unit, and the second run on that output re-pads the
template region with one extra newline on each side, so the outputs differ
(while neither run records any registry request). -/
theorem processVueFile_not_byte_idempotent :
    processVueFile [] ("test") ("<template>\n<p>hi</p>\n</template>") =
      some (("<script setup lang=\"ts\">\n\n</script>\n<template>\n\n<p>hi</p>\n\n</template>"), []) ∧
    processVueFile [] ("test")
        ("<script setup lang=\"ts\">\n\n</script>\n<template>\n\n<p>hi</p>\n\n</template>") =
      some (("<script setup lang=\"ts\">\n\n</script>\n<template>\n\n\n<p>hi</p>\n\n\n</template>"), []) ∧
    ("<script setup lang=\"ts\">\n\n</script>\n<template>\n\n\n<p>hi</p>\n\n\n</template>" : String) ≠
      ("<script setup lang=\"ts\">\n\n</script>\n<template>\n\n<p>hi</p>\n\n</template>") := by
  refine ⟨rfl, rfl, by decide⟩

theorem processVueDesc_shape (cw : List String) (m : String) (d : SFCDescriptor)
    (out : String) (ins : List (String × String))
    (h : processVueDesc cw m d = some (out, ins)) :
    ∃ S T, out = String.mk (assembleOut S T d.styles) := by
  simp only [processVueDesc] at h
  split at h
  · exact absurd h (by simp)
  · rw [Option.some.injEq, Prod.mk.injEq] at h
    obtain ⟨h1, h2⟩ := h
    subst h1
    rw [trim_assembleRaw]
    exact ⟨_, _, rfl⟩

theorem mem_joinNl_infix {x : List Char} {l : List (List Char)} (h : x ∈ l) :
    ∃ pre post, joinNlList l = pre ++ x ++ post := by
  induction l with
  | nil => exact absurd h (List.not_mem_nil x)
  | cons y rest ih =>
    rcases List.mem_cons.mp h with h | h
    · subst h
      cases rest with
      | nil => exact ⟨[], [], by simp [joinNlList]⟩
      | cons z rest2 =>
        refine ⟨[], '\n' :: joinNlList (z :: rest2), ?_⟩
        simp [joinNlList]
    · rcases ih h with ⟨pre, post, hp⟩
      cases rest with
      | nil => exact absurd h (List.not_mem_nil x)
      | cons z rest2 =>
        refine ⟨y ++ '\n' :: pre, post, ?_⟩
        have : joinNlList (y :: z :: rest2) = y ++ '\n' :: joinNlList (z :: rest2) := rfl
        rw [this, hp]
        simp

/-- **C9 counterexample.** A style region's attributes are not preserved:
on a unit whose style block carries `media="print"`, the emitted unit has no
occurrence of `media` at all — only the `scoped` flag and `lang` attribute
survive re-serialization. -/
theorem processVueFile_drops_other_style_attrs :
    processVueFile [] ("test")
        ("<template>x</template>\n<style media=\"print\">.a \x7b color: red \x7d</style>") =
      some (("<script setup lang=\"ts\">\n\n</script>\n<template>\nx\n</template>\n<style>\n.a \x7b color: red \x7d\n</style>"), []) ∧
    hasSub (("media").data)
      ("<template>x</template>\n<style media=\"print\">.a \x7b color: red \x7d</style>").data = true ∧
    hasSub (("media").data)
      ("<script setup lang=\"ts\">\n\n</script>\n<template>\nx\n</template>\n<style>\n.a \x7b color: red \x7d\n</style>").data = false := by
  exact ⟨rfl, rfl, rfl⟩

/-- **C9 amended.** Every style region of a processed unit reappears in the
output with its content byte-for-byte (framed by one added newline on each
side), re-serialized with only its `scoped` flag and `lang` attribute: the
re-emitted block is insensitive to any other original attribute. -/
theorem processVueDesc_styles_content_preserved :
    ∀ (cw : List String) (m : String) (d : SFCDescriptor) (out : String)
      (ins : List (String × String)) (sb : StyleBlock),
      processVueDesc cw m d = some (out, ins) →
      sb ∈ d.styles →
      (∃ pre post, out.data = pre ++ styleBlockStr sb ++ post) ∧
      (∃ pre post, out.data = pre ++ ('\n' :: (sb.content.data ++ ['\n'])) ++ post) ∧
      styleBlockStr sb = styleBlockStr
        { content := sb.content, scopedAttr := sb.scopedAttr, lang := sb.lang,
          otherAttrs := [] } := by
  intro cw m d out ins sb hrun hmem
  rcases processVueDesc_shape cw m d out ins hrun with ⟨S, T, hout⟩
  have hstyles : d.styles ≠ [] := by
    intro hnil
    rw [hnil] at hmem
    exact List.not_mem_nil sb hmem
  have hSB : styleBlockStr sb ∈ d.styles.map styleBlockStr :=
    List.mem_map.mpr ⟨sb, hmem, rfl⟩
  rcases mem_joinNl_infix hSB with ⟨pre, post, hjoin⟩
  have hne : d.styles.isEmpty = false := by
    cases hd : d.styles
    · exact absurd hd hstyles
    · rfl
  have hdata : out.data = assembleOut S T d.styles := by
    rw [hout]
  have hout2 : out.data =
      (("<script setup lang=\"ts\">\n").data ++ S ++
        ("\n</script>\n<template>\n").data ++ T ++ ("\n</template>").data ++
        ('\n' :: joinNlList (d.styles.map styleBlockStr))) := by
    rw [hdata]
    unfold assembleOut
    rw [hne]
    simp
  constructor
  · refine ⟨("<script setup lang=\"ts\">\n").data ++ S ++
      ("\n</script>\n<template>\n").data ++ T ++ ("\n</template>").data ++
      '\n' :: pre, post, ?_⟩
    rw [hout2, hjoin]
    simp
  constructor
  · have hsb : styleBlockStr sb =
        (("<style").data ++
          (if sb.scopedAttr then (" scoped").data else []) ++
          (match sb.lang with
           | some l => (" lang=").data ++ dquoteC :: (l.data ++ [dquoteC])
           | none => []) ++ ['>']) ++
          ('\n' :: (sb.content.data ++ ['\n'])) ++ ("</style>").data := by
      unfold styleBlockStr
      simp
    refine ⟨("<script setup lang=\"ts\">\n").data ++ S ++
      ("\n</script>\n<template>\n").data ++ T ++ ("\n</template>").data ++
      '\n' :: (pre ++ (("<style").data ++
        (if sb.scopedAttr then (" scoped").data else []) ++
        (match sb.lang with
         | some l => (" lang=").data ++ dquoteC :: (l.data ++ [dquoteC])
         | none => []) ++ ['>'])),
      ("</style>").data ++ post, ?_⟩
    rw [hout2, hjoin, hsb]
    simp
  · rfl

/-- Closed witness for the hypotheses of
`processVueDesc_styles_content_preserved`. -/
theorem processVueDesc_styles_content_preserved_witness :
    ∃ pre post,
      (("<script setup lang=\"ts\">\n\n</script>\n<template>\nx\n</template>\n<style>\n.a \x7b color: red \x7d\n</style>") : String).data =
        pre ++ ('\n' :: (((".a \x7b color: red \x7d") : String).data ++ ['\n'])) ++ post :=
  ((processVueDesc_styles_content_preserved [] ("test")
    ⟨some ("x"), none, [], none,
      [⟨(".a \x7b color: red \x7d"), false, none, [(("media"), some ("print"))]⟩]⟩
    (("<script setup lang=\"ts\">\n\n</script>\n<template>\nx\n</template>\n<style>\n.a \x7b color: red \x7d\n</style>"))
    [] ⟨(".a \x7b color: red \x7d"), false, none, [(("media"), some ("print"))]⟩
    rfl (by simp)).2).1

/-- **C10.** The unit processor's output always carries exactly the fixed
opening tag `<script setup lang="ts">` holding only the transformed
setup-script content: the output is insensitive to the original setup tag's
attributes and to any non-setup script region of the input (their content is
dropped, not passed through), it always begins with the fixed tag, and when
both regions are present it is exactly the re-serialization of the two
transformed regions. -/
theorem processVueDesc_fixed_script_region :
    ∀ (cw : List String) (m : String) (d : SFCDescriptor)
      (s' : Option String) (attrs' : List (String × Option String)),
      processVueDesc cw m
          ⟨d.template, d.scriptSetup, attrs', s', d.styles⟩ =
        processVueDesc cw m d ∧
      (∀ out ins, processVueDesc cw m d = some (out, ins) →
        ∃ rest, out.data = ("<script setup lang=\"ts\">\n").data ++ rest) ∧
      (∀ ss S insS tpl T insT,
        d.scriptSetup = some ss → ss.data ≠ [] →
        transformScript cw m ss = some (S, insS) →
        d.template = some tpl → tpl.data ≠ [] →
        transformTemplate cw m tpl = (T, insT) →
        processVueDesc cw m d =
          some (String.mk (assembleOut S.data T.data d.styles), insT ++ insS)) := by
  intro cw m d s' attrs'
  refine ⟨rfl, ?_, ?_⟩
  · intro out ins h
    rcases processVueDesc_shape cw m d out ins h with ⟨S, T, hout⟩
    refine ⟨S ++ ("\n</script>\n<template>\n").data ++ T ++
      ("\n</template>").data ++
      (if d.styles.isEmpty then [] else
        '\n' :: joinNlList (d.styles.map styleBlockStr)), ?_⟩
    rw [hout]
    unfold assembleOut
    simp
  · intro ss S insS tpl T insT hss hssne hsc htpl htplne htt
    have h3 : ss.data.isEmpty = false := by
      cases hc : ss.data
      · exact absurd hc hssne
      · rfl
    have h4 : tpl.data.isEmpty = false := by
      cases hc : tpl.data
      · exact absurd hc htplne
      · rfl
    simp only [processVueDesc, hss, htpl, Option.getD_some, h3, h4,
      Bool.false_eq_true, if_false, hsc, htt, trim_assembleRaw]

/-- Closed witness for the hypotheses of
`processVueDesc_fixed_script_region`. -/
theorem processVueDesc_fixed_script_region_witness :
    processVueDesc [] ("test")
        ⟨some ("<p>x</p>"), some ("const a = b"), [(("setup"), none)],
          some ("const dropped = c"), []⟩ =
      some (String.mk (assembleOut (("const a = b;") : String).data
        ((("<p>x</p>") : String)).data []), [] ++ []) :=
  ((processVueDesc_fixed_script_region [] ("test")
      ⟨some ("<p>x</p>"), some ("const a = b"), [(("setup"), none)],
        some ("const dropped = c"), []⟩ none []).2.2
    ("const a = b") ("const a = b;") [] ("<p>x</p>") ("<p>x</p>") []
    rfl (by decide) rfl rfl (by decide) rfl)

/-- A style block as a second run's parse sees it: content padded with one
newline on each side, other attributes gone. -/
def padStyle (sb : StyleBlock) : StyleBlock :=
  ⟨String.mk ('\n' :: (sb.content.data ++ ['\n'])), sb.scopedAttr, sb.lang, []⟩

theorem styleBlockStr_padStyle_length (sb : StyleBlock) :
    (styleBlockStr (padStyle sb)).length = (styleBlockStr sb).length + 2 := by
  unfold styleBlockStr padStyle
  simp [List.length_append]
  omega

theorem joinNl_padStyles_length (sts : List StyleBlock) :
    (joinNlList ((sts.map padStyle).map styleBlockStr)).length =
      (joinNlList (sts.map styleBlockStr)).length + 2 * sts.length := by
  induction sts with
  | nil => rfl
  | cons sb rest ih =>
    cases rest with
    | nil =>
      have h1 : joinNlList ((List.map padStyle [sb]).map styleBlockStr) =
          styleBlockStr (padStyle sb) := rfl
      have h2 : joinNlList (List.map styleBlockStr [sb]) = styleBlockStr sb := rfl
      rw [h1, h2, styleBlockStr_padStyle_length]
      simp
    | cons sb2 rest2 =>
      have h1 : joinNlList ((List.map padStyle (sb :: sb2 :: rest2)).map styleBlockStr) =
          styleBlockStr (padStyle sb) ++ '\n' ::
            joinNlList ((List.map padStyle (sb2 :: rest2)).map styleBlockStr) := rfl
      have h2 : joinNlList (List.map styleBlockStr (sb :: sb2 :: rest2)) =
          styleBlockStr sb ++ '\n' ::
            joinNlList (List.map styleBlockStr (sb2 :: rest2)) := rfl
      rw [h1, h2]
      simp only [List.length_append, List.length_cons, ih,
        styleBlockStr_padStyle_length, List.length_map]
      simp [List.length_cons]
      omega

theorem assembleOut_length (S T : List Char) (sts : List StyleBlock) :
    (assembleOut S T sts).length =
      59 + S.length + T.length +
        (if sts.isEmpty then 0
         else 1 + (joinNlList (sts.map styleBlockStr)).length) := by
  unfold assembleOut
  have l1 : ("<script setup lang=\"ts\">\n").data.length = 25 := rfl
  have l2 : ("\n</script>\n<template>\n").data.length = 22 := rfl
  have l3 : ("\n</template>").data.length = 12 := rfl
  cases h : sts.isEmpty
  · simp only [h, Bool.false_eq_true, if_false, List.length_append, l1, l2, l3,
      List.length_cons]
    omega
  · simp only [h, if_true, List.length_append, l1, l2, l3, List.length_cons,
      List.length_nil]
    omega

theorem assembleOut_pad_length_ne (S T : List Char) (sts : List StyleBlock) :
    (assembleOut S ('\n' :: (T ++ ['\n'])) (sts.map padStyle)).length ≠
      (assembleOut S T sts).length := by
  rw [assembleOut_length, assembleOut_length]
  have hpad := joinNl_padStyles_length sts
  have hie : (sts.map padStyle).isEmpty = sts.isEmpty := by
    cases sts <;> rfl
  rw [hie, hpad]
  have hT : ('\n' :: (T ++ ['\n'])).length = T.length + 2 := by simp
  rw [hT]
  cases h : sts.isEmpty
  · simp only [Bool.false_eq_true, if_false]
    omega
  · simp only [if_true]
    omega

/-- **C1 amended.** On a unit already in emitted form whose padded regions
are fixed points of the two rewriters (so the second run re-wraps no text
and records no registry request), the second run is still not byte-identical:
the re-serializer pads the template region and each style region with one
extra newline on each side, so the output strictly grows. -/
theorem processVueFile_second_run_padding :
    ∀ (cw : List String) (m : String) (S T : List Char)
      (styles : List StyleBlock) (d : SFCDescriptor),
      sfcParse (String.mk (assembleOut S T styles)) = some d →
      d.template = some (String.mk ('\n' :: (T ++ ['\n']))) →
      d.scriptSetup = some (String.mk ('\n' :: (S ++ ['\n']))) →
      d.styles = styles.map padStyle →
      transformScript cw m (String.mk ('\n' :: (S ++ ['\n']))) =
        some (String.mk S, []) →
      transformTemplate cw m (String.mk ('\n' :: (T ++ ['\n']))) =
        (String.mk ('\n' :: (T ++ ['\n'])), []) →
      processVueFile cw m (String.mk (assembleOut S T styles)) =
        some (String.mk (assembleOut S ('\n' :: (T ++ ['\n']))
          (styles.map padStyle)), []) ∧
      String.mk (assembleOut S ('\n' :: (T ++ ['\n'])) (styles.map padStyle)) ≠
        String.mk (assembleOut S T styles) := by
  intro cw m S T styles d hparse htpl hss hsty hsc htt
  constructor
  · unfold processVueFile
    rw [hparse]
    have h3 : (String.mk ('\n' :: (S ++ ['\n']))).data.isEmpty = false := rfl
    have h4 : (String.mk ('\n' :: (T ++ ['\n']))).data.isEmpty = false := rfl
    simp only [processVueDesc, hss, htpl, Option.getD_some, h3, h4,
      Bool.false_eq_true, if_false, hsc, htt, trim_assembleRaw, hsty]
    rfl
  · intro heq
    have hdata : assembleOut S ('\n' :: (T ++ ['\n'])) (styles.map padStyle) =
        assembleOut S T styles := congrArg String.data heq
    exact assembleOut_pad_length_ne S T styles (by rw [hdata])

/-- Closed witness for the hypotheses of
`processVueFile_second_run_padding`. -/
theorem processVueFile_second_run_padding_witness :
    processVueFile [] ("test")
        (String.mk (assembleOut [] ((("<p>hi</p>") : String)).data [])) =
      some (String.mk (assembleOut []
        ('\n' :: (((("<p>hi</p>") : String)).data ++ ['\n']))
        (List.map padStyle [])), []) ∧
    String.mk (assembleOut [] ('\n' :: (((("<p>hi</p>") : String)).data ++ ['\n']))
        (List.map padStyle [])) ≠
      String.mk (assembleOut [] ((("<p>hi</p>") : String)).data []) :=
  processVueFile_second_run_padding [] ("test") [] ((("<p>hi</p>") : String)).data
    [] ⟨some ("\n<p>hi</p>\n"), some ("\n\n"),
      [(("setup"), none), (("lang"), some ("ts"))], none, []⟩
    rfl rfl rfl rfl rfl rfl

/-! ### Scanner lemmas for the interpolation and attribute passes -/

theorem takeWhile_append_all {p : Char → Bool} {xs : List Char} (ys : List Char)
    (h : ∀ x ∈ xs, p x = true) :
    (xs ++ ys).takeWhile p = xs ++ ys.takeWhile p := by
  induction xs with
  | nil => rfl
  | cons c cs ih =>
    have hc : p c = true := h c (List.mem_cons_self _ _)
    simp only [List.cons_append, List.takeWhile_cons, hc, if_true]
    rw [ih (fun x hx => h x (List.mem_cons_of_mem _ hx))]

theorem dropWhile_append_all {p : Char → Bool} {xs : List Char} (ys : List Char)
    (h : ∀ x ∈ xs, p x = true) :
    (xs ++ ys).dropWhile p = ys.dropWhile p := by
  induction xs with
  | nil => rfl
  | cons c cs ih =>
    have hc : p c = true := h c (List.mem_cons_self _ _)
    simp only [List.cons_append, List.dropWhile_cons, hc, if_true]
    exact ih (fun x hx => h x (List.mem_cons_of_mem _ hx))

/-- A CJK character is neither a quote nor a brace. -/
theorem cjk_not_special {c : Char} (h : isCJK c = true) :
    isQuoteChar c = false ∧ c ≠ lbrace ∧ c ≠ rbrace := by
  have hn : 0x4e00 ≤ c.toNat := by
    unfold isCJK at h
    rw [Bool.and_eq_true] at h
    exact of_decide_eq_true h.1
  refine ⟨?_, ?_, ?_⟩
  · unfold isQuoteChar
    have h1 : c ≠ squoteC := by
      intro hc
      rw [hc] at hn
      exact absurd hn (by decide)
    have h2 : c ≠ dquoteC := by
      intro hc
      rw [hc] at hn
      exact absurd hn (by decide)
    simp [h1, h2]
  · intro hc
    rw [hc] at hn
    exact absurd hn (by decide)
  · intro hc
    rw [hc] at hn
    exact absurd hn (by decide)

theorem quotedGo_nil (cw : List String) (m : String) (f : Nat) :
    quotedGo cw m f [] = ([], []) := by
  cases f <;> rfl

theorem tryQuotedAt_nonquote {c : Char} (cs : List Char)
    (h : isQuoteChar c = false) : tryQuotedAt (c :: cs) = none := by
  simp [tryQuotedAt, h]

theorem quotedGo_append_nonquote (cw : List String) (m : String)
    (pre : List Char) (fuel : Nat) (rest : List Char)
    (h : ∀ c ∈ pre, isQuoteChar c = false) :
    quotedGo cw m (pre.length + fuel) (pre ++ rest) =
      (pre ++ (quotedGo cw m fuel rest).1, (quotedGo cw m fuel rest).2) := by
  induction pre with
  | nil => simp
  | cons c cs ih =>
    have hc : isQuoteChar c = false := h c (List.mem_cons_self _ _)
    have hlen : (c :: cs).length + fuel = (cs.length + fuel) + 1 := by
      simp [List.length_cons]
      omega
    rw [hlen]
    show quotedGo cw m ((cs.length + fuel) + 1) (c :: (cs ++ rest)) = _
    rw [show quotedGo cw m ((cs.length + fuel) + 1) (c :: (cs ++ rest)) =
      (match tryQuotedAt (c :: (cs ++ rest)) with
      | some (_, zh, rest2) =>
        let text := String.mk zh
        let key := resolveModule cw m text ++ (".") ++ text
        let r := quotedGo cw m (cs.length + fuel) rest2
        ('$' :: 't' :: '(' :: squoteC :: (key.data ++ squoteC :: ')' :: r.1),
          (m, text) :: r.2)
      | none =>
        let r := quotedGo cw m (cs.length + fuel) (cs ++ rest)
        (c :: r.1, r.2)) from rfl]
    rw [tryQuotedAt_nonquote _ hc]
    rw [ih (fun x hx => h x (List.mem_cons_of_mem _ hx))]
    rfl

theorem tryQuotedAt_match (zh0 : Char) (zhr post : List Char)
    (h0 : isCJK zh0 = true)
    (hzh : ∀ c ∈ zhr, isQuoteChar c = false) :
    tryQuotedAt (squoteC :: zh0 :: (zhr ++ squoteC :: post)) =
      some (squoteC, zh0 :: zhr, post) := by
  have hq : isQuoteChar squoteC = true := rfl
  have hall : ∀ c ∈ zhr, (fun d => !(isQuoteChar d)) c = true := by
    intro c hc
    simp [hzh c hc]
  have hd : (squoteC :: post).dropWhile (fun d => !(isQuoteChar d)) =
      squoteC :: post := by
    rw [List.dropWhile_cons]
    simp [hq]
  have ht : (squoteC :: post).takeWhile (fun d => !(isQuoteChar d)) = [] := by
    rw [List.takeWhile_cons]
    simp [hq]
  simp only [tryQuotedAt, hq, if_true, h0, dropWhile_append_all _ hall,
    takeWhile_append_all _ hall, hd, ht]
  simp

/-- The characters of the emitted translation call `$t('key')`. -/
def tCallChars (cw : List String) (m : String) (text : String) : List Char :=
  '$' :: 't' :: '(' :: squoteC ::
    ((resolveModule cw m text ++ (".") ++ text).data ++ [squoteC, ')'])

theorem quotedGo_single (cw : List String) (m : String)
    (pre : List Char) (zh0 : Char) (zhr post : List Char)
    (hpre : ∀ c ∈ pre, isQuoteChar c = false)
    (h0 : isCJK zh0 = true)
    (hzh : ∀ c ∈ zhr, isQuoteChar c = false)
    (hpost : ∀ c ∈ post, isQuoteChar c = false) :
    quotedGo cw m (pre ++ squoteC :: zh0 :: (zhr ++ squoteC :: post)).length
        (pre ++ squoteC :: zh0 :: (zhr ++ squoteC :: post)) =
      (pre ++ tCallChars cw m (String.mk (zh0 :: zhr)) ++ post,
        [(m, String.mk (zh0 :: zhr))]) := by
  have hlen : (pre ++ squoteC :: zh0 :: (zhr ++ squoteC :: post)).length =
      pre.length + (zhr.length + post.length + 3) := by
    simp [List.length_append, List.length_cons]
    omega
  rw [hlen, quotedGo_append_nonquote cw m pre _ _ hpre]
  have hstep : quotedGo cw m (zhr.length + post.length + 3)
      (squoteC :: zh0 :: (zhr ++ squoteC :: post)) =
      (tCallChars cw m (String.mk (zh0 :: zhr)) ++ post,
        [(m, String.mk (zh0 :: zhr))]) := by
    have hsucc : zhr.length + post.length + 3 = (zhr.length + post.length + 2) + 1 := by
      omega
    rw [hsucc]
    rw [show quotedGo cw m ((zhr.length + post.length + 2) + 1)
        (squoteC :: zh0 :: (zhr ++ squoteC :: post)) =
      (match tryQuotedAt (squoteC :: zh0 :: (zhr ++ squoteC :: post)) with
      | some (_, zh, rest2) =>
        let text := String.mk zh
        let key := resolveModule cw m text ++ (".") ++ text
        let r := quotedGo cw m (zhr.length + post.length + 2) rest2
        ('$' :: 't' :: '(' :: squoteC :: (key.data ++ squoteC :: ')' :: r.1),
          (m, text) :: r.2)
      | none =>
        let r := quotedGo cw m (zhr.length + post.length + 2)
          (zh0 :: (zhr ++ squoteC :: post))
        (squoteC :: r.1, r.2)) from rfl]
    rw [tryQuotedAt_match zh0 zhr post h0 hzh]
    have hrest : quotedGo cw m (zhr.length + post.length + 2) post =
        (post, []) := by
      have hl2 : zhr.length + post.length + 2 = post.length + (zhr.length + 2) := by
        omega
      rw [hl2]
      have hz := quotedGo_append_nonquote cw m post (zhr.length + 2) [] hpost
      rw [List.append_nil] at hz
      rw [hz, quotedGo_nil]
      simp
    simp only [hrest]
    unfold tCallChars
    simp
  rw [hstep]
  simp

theorem tryInterpAt_match (expr : List Char)
    (h : ∀ c ∈ expr, c ≠ lbrace ∧ c ≠ rbrace) :
    tryInterpAt (lbrace :: lbrace :: (expr ++ [rbrace, rbrace])) =
      some (expr, []) := by
  unfold tryInterpAt
  simp only [if_pos rfl]
  have hall : ∀ c ∈ expr, (fun d => !(d = lbrace || d = rbrace)) c = true := by
    intro c hc
    simp [(h c hc).1, (h c hc).2]
  rw [dropWhile_append_all _ hall, takeWhile_append_all _ hall]
  have hd : ([rbrace, rbrace] : List Char).dropWhile
      (fun d => !(d = lbrace || d = rbrace)) = [rbrace, rbrace] := by
    rw [List.dropWhile_cons]
    simp
  have ht : ([rbrace, rbrace] : List Char).takeWhile
      (fun d => !(d = lbrace || d = rbrace)) = [] := by
    rw [List.takeWhile_cons]
    simp
  rw [hd, ht]
  simp

theorem interpGo_nil (cw : List String) (m : String) (f : Nat) :
    interpGo cw m f [] = ([], []) := by
  cases f <;> rfl

/-- **C7 counterexample.** Inside an interpolation pair, the quoted literal
`'a你'` contains a CJK character, yet the interpolation pass leaves the
template unchanged and records nothing: the regex only matches a literal
whose first character is in the CJK range. -/
theorem interpPass_quote_literal_not_replaced :
    interpPass [] ("test")
        ((("\x7b\x7bf(").data) ++ squoteC ::
          (((("a你").data)) ++ squoteC :: ((")\x7d\x7d").data))) =
      (((("\x7b\x7bf(").data) ++ squoteC ::
          (((("a你").data)) ++ squoteC :: ((")\x7d\x7d").data))), []) ∧
    containsCJK (squoteC :: ((("a你").data) ++ [squoteC])) = true := by
  exact ⟨rfl, rfl⟩

/-- **C7 amended.** Within an interpolation pair, a quoted literal whose
first character is a target-script (CJK) character is replaced with the
translation call `$t('key')` holding the resolved key, and the captured text
is recorded; literals whose CJK text starts later are not touched (see the
counterexample). -/
theorem interpPass_replaces_quote_leading_literal :
    ∀ (cw : List String) (m : String) (pre : List Char) (zh0 : Char)
      (zhr post : List Char),
      (∀ c ∈ pre, isQuoteChar c = false ∧ c ≠ lbrace ∧ c ≠ rbrace) →
      isCJK zh0 = true →
      (∀ c ∈ zhr, isQuoteChar c = false ∧ c ≠ lbrace ∧ c ≠ rbrace) →
      (∀ c ∈ post, isQuoteChar c = false ∧ c ≠ lbrace ∧ c ≠ rbrace) →
      interpPass cw m (lbrace :: lbrace ::
          ((pre ++ squoteC :: zh0 :: (zhr ++ squoteC :: post)) ++
            [rbrace, rbrace])) =
        (lbrace :: lbrace ::
          ((pre ++ tCallChars cw m (String.mk (zh0 :: zhr)) ++ post) ++
            [rbrace, rbrace]),
          [(m, String.mk (zh0 :: zhr))]) := by
  intro cw m pre zh0 zhr post hpre h0 hzh hpost
  have hsq : squoteC ≠ lbrace ∧ squoteC ≠ rbrace := by decide
  have hnob : ∀ c ∈ pre ++ squoteC :: zh0 :: (zhr ++ squoteC :: post),
      c ≠ lbrace ∧ c ≠ rbrace := by
    intro c hc
    rcases List.mem_append.mp hc with hc | hc
    · exact ⟨(hpre c hc).2.1, (hpre c hc).2.2⟩
    · rcases List.mem_cons.mp hc with hc | hc
      · subst hc; exact hsq
      · rcases List.mem_cons.mp hc with hc | hc
        · subst hc; exact ⟨(cjk_not_special h0).2.1, (cjk_not_special h0).2.2⟩
        · rcases List.mem_append.mp hc with hc | hc
          · exact ⟨(hzh c hc).2.1, (hzh c hc).2.2⟩
          · rcases List.mem_cons.mp hc with hc | hc
            · subst hc; exact hsq
            · exact ⟨(hpost c hc).2.1, (hpost c hc).2.2⟩
  unfold interpPass
  have hlen : (lbrace :: lbrace ::
      ((pre ++ squoteC :: zh0 :: (zhr ++ squoteC :: post)) ++
        [rbrace, rbrace])).length =
      ((pre ++ squoteC :: zh0 :: (zhr ++ squoteC :: post)).length + 3) + 1 := by
    simp only [List.length_cons, List.length_append, List.length_nil]
  rw [hlen]
  rw [show interpGo cw m
      (((pre ++ squoteC :: zh0 :: (zhr ++ squoteC :: post)).length + 3) + 1)
      (lbrace :: lbrace ::
        ((pre ++ squoteC :: zh0 :: (zhr ++ squoteC :: post)) ++
          [rbrace, rbrace])) =
    (match tryInterpAt (lbrace :: lbrace ::
        ((pre ++ squoteC :: zh0 :: (zhr ++ squoteC :: post)) ++
          [rbrace, rbrace])) with
    | some (body, rest) =>
      let rb := quotedGo cw m body.length body
      let r := interpGo cw m
        ((pre ++ squoteC :: zh0 :: (zhr ++ squoteC :: post)).length + 3) rest
      (lbrace :: lbrace :: (rb.1 ++ rbrace :: rbrace :: r.1), rb.2 ++ r.2)
    | none =>
      let r := interpGo cw m
        ((pre ++ squoteC :: zh0 :: (zhr ++ squoteC :: post)).length + 3)
        (lbrace ::
          ((pre ++ squoteC :: zh0 :: (zhr ++ squoteC :: post)) ++
            [rbrace, rbrace]))
      (lbrace :: r.1, r.2)) from rfl]
  rw [tryInterpAt_match _ hnob]
  simp only [quotedGo_single cw m pre zh0 zhr post
    (fun c hc => (hpre c hc).1) h0
    (fun c hc => (hzh c hc).1) (fun c hc => (hpost c hc).1), interpGo_nil]
  simp

/-- Closed witness for the hypotheses of
`interpPass_replaces_quote_leading_literal`. -/
theorem interpPass_replaces_quote_leading_literal_witness :
    interpPass [] ("test") (lbrace :: lbrace ::
        (((("f(").data) ++ squoteC :: '你' ::
          (((("好").data)) ++ squoteC :: ((")").data))) ++ [rbrace, rbrace])) =
      (lbrace :: lbrace ::
        (((("f(").data) ++ tCallChars [] ("test")
          (String.mk ('你' :: (("好").data))) ++ ((")").data)) ++
          [rbrace, rbrace]),
        [(("test"), String.mk ('你' :: (("好").data)))]) :=
  interpPass_replaces_quote_leading_literal [] ("test") (("f(").data) '你'
    (("好").data) ((")").data) (by decide) (by decide) (by decide) (by decide)

theorem attrGo_nil (cw : List String) (m : String) (f : Nat) :
    attrGo cw m f [] = ([], []) := by
  cases f <;> rfl

theorem tryAttrAt_nonws {c : Char} (cs : List Char)
    (h : isWsChar c = false) : tryAttrAt (c :: cs) = none := by
  simp [tryAttrAt, h]

theorem attrGo_append_nonws (cw : List String) (m : String)
    (pre : List Char) (fuel : Nat) (rest : List Char)
    (h : ∀ c ∈ pre, isWsChar c = false) :
    attrGo cw m (pre.length + fuel) (pre ++ rest) =
      (pre ++ (attrGo cw m fuel rest).1, (attrGo cw m fuel rest).2) := by
  induction pre with
  | nil => simp
  | cons c cs ih =>
    have hc : isWsChar c = false := h c (List.mem_cons_self _ _)
    have hlen : (c :: cs).length + fuel = (cs.length + fuel) + 1 := by
      simp [List.length_cons]
      omega
    rw [hlen]
    show attrGo cw m ((cs.length + fuel) + 1) (c :: (cs ++ rest)) = _
    rw [show attrGo cw m ((cs.length + fuel) + 1) (c :: (cs ++ rest)) =
      (match tryAttrAt (c :: (cs ++ rest)) with
      | some (sp, name, v, rest2) =>
        let repl := attrRepl cw m sp name v
        let r := attrGo cw m (cs.length + fuel) rest2
        (repl.1 ++ r.1, repl.2 ++ r.2)
      | none =>
        let r := attrGo cw m (cs.length + fuel) (cs ++ rest)
        (c :: r.1, r.2)) from rfl]
    rw [tryAttrAt_nonws _ hc]
    rw [ih (fun x hx => h x (List.mem_cons_of_mem _ hx))]
    rfl

theorem tryAttrAt_title_match (v rest : List Char)
    (hv : ∀ c ∈ v, c ≠ dquoteC)
    (hcjk : containsCJK v = true) :
    tryAttrAt (' ' :: ((("title").data) ++ '=' :: dquoteC ::
        (v ++ dquoteC :: rest))) =
      some (' ', (("title").data), v, rest) := by
  have hws : isWsChar ' ' = true := rfl
  have hname : ∀ c ∈ (("title").data), isAttrChar c = true := by decide
  have heq : isAttrChar '=' = false := rfl
  have hallv : ∀ c ∈ v, decide (c ≠ dquoteC) = true :=
    fun c hc => decide_eq_true (hv c hc)
  have htv : (v ++ dquoteC :: rest).takeWhile (fun d => d ≠ dquoteC) = v := by
    rw [takeWhile_append_all _ hallv, List.takeWhile_cons]
    simp
  have hdv : (v ++ dquoteC :: rest).dropWhile (fun d => d ≠ dquoteC) =
      dquoteC :: rest := by
    rw [dropWhile_append_all _ hallv, List.dropWhile_cons]
    simp
  have htn : ((("title").data) ++ '=' :: dquoteC ::
      (v ++ dquoteC :: rest)).takeWhile isAttrChar = (("title").data) := by
    rw [takeWhile_append_all _ hname, List.takeWhile_cons]
    simp [heq]
  have hdn : ((("title").data) ++ '=' :: dquoteC ::
      (v ++ dquoteC :: rest)).dropWhile isAttrChar =
      '=' :: dquoteC :: (v ++ dquoteC :: rest) := by
    rw [dropWhile_append_all _ hname, List.dropWhile_cons]
    simp [heq]
  simp only [tryAttrAt, hws, if_true, htn, hdn, htv, hdv, hcjk]
  simp

/-- **C8.** A static attribute `title="v"` whose value contains CJK text
(and is trim-stable, quote-free and not an override term) is rewritten by
the attribute pass into the dynamic binding `:title="$t('test.v')"`, the
trimmed value is recorded under the file namespace, and replaying the
recorded request gives the registry entry `test → (v, v)`. -/
theorem attrPass_static_attribute :
    ∀ (cw : List String) (v : List Char),
      containsCJK v = true →
      (∀ c ∈ v, c ≠ dquoteC) →
      trimChars v = v →
      v ≠ [] →
      cw.contains (String.mk v) = false →
      attrPass cw ("test")
          ((("<div").data) ++ ' ' :: ((("title").data) ++ '=' :: dquoteC ::
            (v ++ dquoteC :: ((">").data)))) =
        ((("<div").data) ++ ' ' :: ':' :: ((("title").data) ++ '=' :: dquoteC ::
          '$' :: 't' :: '(' :: squoteC ::
          (((("test") ++ (".") ++ String.mk v).data) ++
            squoteC :: ')' :: [dquoteC]) ++ ((">").data)),
          [(("test"), String.mk v)]) ∧
      applyInserts cw [] [(("test"), String.mk v)] =
        [(("test"), [(String.mk v, String.mk v)])] := by
  intro cw v hcjk hv htrim hne hcw
  have hres : resolveModule cw ("test") (String.mk v) = ("test") := by
    unfold resolveModule
    rw [hcw]
    rfl
  constructor
  · unfold attrPass
    have hdiv : ∀ c ∈ (("<div").data), isWsChar c = false := by decide
    have hlen : ((("<div").data) ++ ' ' :: ((("title").data) ++ '=' :: dquoteC ::
        (v ++ dquoteC :: ((">").data)))).length =
        (("<div").data).length + (v.length + 10) := by
      simp only [List.length_cons, List.length_append, List.length_nil]
      omega
    rw [hlen, attrGo_append_nonws cw ("test") _ _ _ hdiv]
    have hstep : attrGo cw ("test") (v.length + 10)
        (' ' :: ((("title").data) ++ '=' :: dquoteC ::
          (v ++ dquoteC :: ((">").data)))) =
        (' ' :: ':' :: ((("title").data) ++ '=' :: dquoteC ::
          '$' :: 't' :: '(' :: squoteC ::
          (((("test") ++ (".") ++ String.mk v).data) ++
            squoteC :: ')' :: [dquoteC]) ++ ((">").data)),
          [(("test"), String.mk v)]) := by
      have hsucc : v.length + 10 = (v.length + 9) + 1 := by omega
      rw [hsucc]
      rw [show attrGo cw ("test") ((v.length + 9) + 1)
          (' ' :: ((("title").data) ++ '=' :: dquoteC ::
            (v ++ dquoteC :: ((">").data)))) =
        (match tryAttrAt (' ' :: ((("title").data) ++ '=' :: dquoteC ::
            (v ++ dquoteC :: ((">").data)))) with
        | some (sp, name, w, rest2) =>
          let repl := attrRepl cw ("test") sp name w
          let r := attrGo cw ("test") (v.length + 9) rest2
          (repl.1 ++ r.1, repl.2 ++ r.2)
        | none =>
          let r := attrGo cw ("test") (v.length + 9)
            (((("title").data) ++ '=' :: dquoteC ::
              (v ++ dquoteC :: ((">").data))))
          (' ' :: r.1, r.2)) from rfl]
      rw [tryAttrAt_title_match v _ hv hcjk]
      have hrepl : attrRepl cw ("test") ' ' (("title").data) v =
          (' ' :: ':' :: ((("title").data) ++ '=' :: dquoteC ::
            '$' :: 't' :: '(' :: squoteC ::
            (((("test") ++ (".") ++ String.mk v).data) ++
              squoteC :: ')' :: [dquoteC])),
            [(("test"), String.mk v)]) := by
        have hneb : v.isEmpty = false := by
          cases hc : v
          · exact absurd hc hne
          · rfl
        have hdyn : isDynamicName (("title").data) = false := rfl
        unfold attrRepl
        simp only [htrim, hneb, Bool.false_eq_true, if_false, hdyn, hres]
      have hrest : attrGo cw ("test") (v.length + 9) ((">").data) =
          (((">").data), []) := by
        have h1 : v.length + 9 = ((">").data).length + (v.length + 8) := by
          have : (((">").data)).length = 1 := rfl
          omega
        rw [h1]
        have hgt : ∀ c ∈ ((">").data), isWsChar c = false := by decide
        have := attrGo_append_nonws cw ("test") ((">").data) (v.length + 8) [] hgt
        rw [List.append_nil] at this
        rw [this, attrGo_nil]
        rfl
      simp only [hrepl, hrest]
      simp
    rw [hstep]
  · show addLocale cw [] ("test") (String.mk v) = _
    unfold addLocale
    rw [hres]
    rfl

/-- Closed witness for the hypotheses of `attrPass_static_attribute`
(the spec's own example `title="你好"` under namespace `test`). -/
theorem attrPass_static_attribute_witness :
    attrPass [] ("test")
        ((("<div").data) ++ ' ' :: ((("title").data) ++ '=' :: dquoteC ::
          (((("你好").data)) ++ dquoteC :: ((">").data)))) =
      ((("<div").data) ++ ' ' :: ':' :: ((("title").data) ++ '=' :: dquoteC ::
        '$' :: 't' :: '(' :: squoteC ::
        (((("test") ++ (".") ++ String.mk (("你好").data)).data) ++
          squoteC :: ')' :: [dquoteC]) ++ ((">").data)),
        [(("test"), String.mk (("你好").data))]) ∧
    applyInserts [] [] [(("test"), String.mk (("你好").data))] =
      [(("test"), [(String.mk (("你好").data), String.mk (("你好").data))])] :=
  attrPass_static_attribute [] (("你好").data) (by decide) (by decide)
    (by decide) (by decide) (by decide)

end I18n
